import Mathlib

/-!
Verification of the split-expense core: the split-calculation engine and the
balance-ledger maintenance protocol.  Monetary values are modelled as exact
rationals; `roundToTwoDecimalPlaces` mirrors `util.RoundToTwoDecimalPlaces`
(`math.Round(f*100)/100`, round half away from zero).  Identifiers follow the
Go source (`internal/service/split_strategy.go`, `internal/service/user.go`,
`internal/repository/balance.go`, and the expense repository).
-/

set_option maxRecDepth 10000

set_option allowUnsafeReducibility true

attribute [local semireducible] Rat.mul Rat.add Rat.sub Rat.div Rat.inv Rat.ceil Rat.floor

namespace SplitExpense

instance {ε α : Type} [DecidableEq ε] [DecidableEq α] : DecidableEq (Except ε α) := fun
  | .ok a, .ok b =>
      if h : a = b then .isTrue (by rw [h])
      else .isFalse (by intro he; cases he; exact h rfl)
  | .ok _, .error _ => .isFalse (by intro h; cases h)
  | .error _, .ok _ => .isFalse (by intro h; cases h)
  | .error e, .error f =>
      if h : e = f then .isTrue (by rw [h])
      else .isFalse (by intro he; cases he; exact h rfl)

/-- Round half away from zero to the nearest integer, the semantics of Go's
`math.Round`. -/
def mathRound (q : ℚ) : ℤ :=
  if 0 ≤ q then ⌊q + 1/2⌋ else -⌊-q + 1/2⌋

/-- `util.RoundToTwoDecimalPlaces`: `math.Round(f*100)/100`. -/
def roundToTwoDecimalPlaces (f : ℚ) : ℚ :=
  (mathRound (f * 100) : ℚ) / 100

/-- A rational that is a whole number of cents (the values of
`roundToTwoDecimalPlaces`, and of the `DECIMAL(10,2)` database columns). -/
def Cents (q : ℚ) : Prop := ∃ k : ℤ, q = (k : ℚ) / 100

/-- A money value whose scaling by 100 is not exactly midway between two
integers, so rounding it to cents involves no tie. -/
def NoHalfCent (q : ℚ) : Prop := ∀ m : ℤ, q * 100 ≠ (m : ℚ) + 1/2

/-- `repository.User`. -/
structure User where
  id : ℤ
  name : String
  email : String
deriving DecidableEq

/-- `repository.Expense` (timestamps modelled as naturals). -/
structure Expense where
  id : ℤ
  description : String
  tag : String
  totalAmount : ℚ
  createdBy : ℤ
  createdAt : ℕ
deriving DecidableEq

/-- `repository.ExpenseSplit`. -/
structure ExpenseSplit where
  id : ℤ
  expenseId : ℤ
  userID : ℤ
  amountPaid : ℚ
  amountOwed : ℚ
deriving DecidableEq

/-- `repository.BalanceUpdate`. -/
structure BalanceUpdate where
  user1ID : ℤ
  user2ID : ℤ
  amount : ℚ
deriving DecidableEq

/-- `repository.Balance`, one row of the `balances` table. -/
structure Balance where
  user1ID : ℤ
  user2ID : ℤ
  balance : ℚ
  lastUpdated : ℕ
deriving DecidableEq

/-- `service.EqualSplitRequest`. -/
structure EqualSplitRequest where
  userEmail : String
  userID : ℤ
  amountPaid : ℚ
deriving DecidableEq

/-- `service.PercentageSplitRequest`. -/
structure PercentageSplitRequest where
  userEmail : String
  userID : ℤ
  percentage : ℚ
  amountPaid : ℚ
deriving DecidableEq

/-- `service.ManualSplitRequest`. -/
structure ManualSplitRequest where
  userEmail : String
  userID : ℤ
  amountOwed : ℚ
  amountPaid : ℚ
deriving DecidableEq

/-- `service.CreateExpenseRequest`; the split method is a string tag as in Go. -/
structure CreateExpenseRequest where
  description : String
  tag : String
  totalAmount : ℚ
  createdByEmail : String
  createdByID : ℤ
  splitMethod : String
  equalSplits : List EqualSplitRequest
  percentageSplits : List PercentageSplitRequest
  manualSplits : List ManualSplitRequest
deriving DecidableEq

def splitMethodEqual : String := "equal"

def splitMethodPercentage : String := "percentage"

def splitMethodManual : String := "manual"

/-- The errors produced by the core paths.  Each constructor stands for one
`fmt.Errorf` call site, carrying the values interpolated into its message. -/
inductive ExpenseErr where
  | equalRequiresParticipants
  | equalRoundingError (sumOwed total : ℚ)
  | percentageRequiresPercentages
  | percentageTotalNot100
  | manualRequiresAmounts
  | manualMismatch (totalOwed total : ℚ)
  | invalidSplitMethod (method : String)
  | createdByNotFound (email : String)
  | participantNotFound (email : String)
  | paidMismatch (totalPaid total : ℚ)
  | userNotFound (email : String)
  | requiredFieldsMissing
  | handlerEqualNoParticipants
  | handlerPercentageNoPercentages
  | handlerManualNoAmounts
  | duplicateEmail (email : String)
  | handlerPercentageNot100
  | handlerManualTotalMismatch (totalOwed total : ℚ)
  | unsupportedSplitMethod
  | createdByNotInParticipants (email : String)
deriving DecidableEq

/-- `equalSplitStrategy.CalculateSplits`: everyone owes
`round2(total/n)` except the first participant, who absorbs the rounding
remainder; a final check compares the rounded owed sum with the rounded
total. -/
def equalSplitStrategyCalculateSplits (req : CreateExpenseRequest) :
    Except ExpenseErr (List ExpenseSplit) :=
  if req.equalSplits = [] then
    .error .equalRequiresParticipants
  else
    let n := req.equalSplits.length
    let amountPerUser := roundToTwoDecimalPlaces (req.totalAmount / (n : ℚ))
    let splits := req.equalSplits.enum.map (fun p =>
      let splitOwed :=
        if p.1 = 0 then
          roundToTwoDecimalPlaces (req.totalAmount - amountPerUser * ((n - 1 : ℕ) : ℚ))
        else
          amountPerUser
      ExpenseSplit.mk 0 0 p.2.userID (roundToTwoDecimalPlaces p.2.amountPaid) splitOwed)
    let currentTotalOwed := (splits.map (fun s => s.amountOwed)).sum
    if roundToTwoDecimalPlaces currentTotalOwed ≠ roundToTwoDecimalPlaces req.totalAmount then
      .error (.equalRoundingError currentTotalOwed req.totalAmount)
    else
      .ok splits

/-- `percentageSplitStrategy.CalculateSplits`: requires the percentages to sum
to exactly 100, computes `round2(total*pct/100)` per participant, then adds the
rounding residual to the first participant. -/
def percentageSplitStrategyCalculateSplits (req : CreateExpenseRequest) :
    Except ExpenseErr (List ExpenseSplit) :=
  if req.percentageSplits = [] then
    .error .percentageRequiresPercentages
  else
    let totalPercentage := (req.percentageSplits.map (fun ps => ps.percentage)).sum
    if totalPercentage ≠ 100 then
      .error .percentageTotalNot100
    else
      let splits := req.percentageSplits.map (fun ps =>
        ExpenseSplit.mk 0 0 ps.userID (roundToTwoDecimalPlaces ps.amountPaid)
          (roundToTwoDecimalPlaces (req.totalAmount * (ps.percentage / 100))))
      let currentTotalOwed := (splits.map (fun s => s.amountOwed)).sum
      let diff := roundToTwoDecimalPlaces (req.totalAmount - currentTotalOwed)
      if diff ≠ 0 ∧ splits ≠ [] then
        match splits with
        | [] => .ok splits
        | s0 :: rest =>
            .ok ({ s0 with amountOwed := roundToTwoDecimalPlaces (s0.amountOwed + diff) } :: rest)
      else
        .ok splits

/-- `manualSplitStrategy.CalculateSplits`: rounds each caller-supplied owed
amount and requires the rounded sum to equal the rounded total. -/
def manualSplitStrategyCalculateSplits (req : CreateExpenseRequest) :
    Except ExpenseErr (List ExpenseSplit) :=
  if req.manualSplits = [] then
    .error .manualRequiresAmounts
  else
    let splits := req.manualSplits.map (fun ms =>
      ExpenseSplit.mk 0 0 ms.userID (roundToTwoDecimalPlaces ms.amountPaid)
        (roundToTwoDecimalPlaces ms.amountOwed))
    let totalOwed := (splits.map (fun s => s.amountOwed)).sum
    if roundToTwoDecimalPlaces totalOwed ≠ roundToTwoDecimalPlaces req.totalAmount then
      .error (.manualMismatch totalOwed req.totalAmount)
    else
      .ok splits

/-- `getSplitStrategy` composed with the selected strategy's
`CalculateSplits` (the body of `expenseService.calculateExpenseSplits`):
dispatch on the split-method tag, unknown tags are an error. -/
def calculateExpenseSplits (req : CreateExpenseRequest) :
    Except ExpenseErr (List ExpenseSplit) :=
  if req.splitMethod = splitMethodEqual then
    equalSplitStrategyCalculateSplits req
  else if req.splitMethod = splitMethodPercentage then
    percentageSplitStrategyCalculateSplits req
  else if req.splitMethod = splitMethodManual then
    manualSplitStrategyCalculateSplits req
  else
    .error (.invalidSplitMethod req.splitMethod)

/-- `expenseService.calculateBalanceUpdates`: for each split whose user is not
the expense creator, with nonzero net `amount_owed - amount_paid`, append one
`BalanceUpdate {creator, participant, net}`, in split order. -/
def calculateBalanceUpdates (expense : Expense) (splits : List ExpenseSplit) :
    List BalanceUpdate :=
  splits.foldl
    (fun balanceUpdates split =>
      if expense.createdBy ≠ split.userID then
        let netAmountOwedToCreator := split.amountOwed - split.amountPaid
        if netAmountOwedToCreator ≠ 0 then
          balanceUpdates ++ [⟨expense.createdBy, split.userID, netAmountOwedToCreator⟩]
        else
          balanceUpdates
      else
        balanceUpdates)
    []

/-- The `INSERT ... ON DUPLICATE KEY UPDATE balance = balance + ?` upsert on the
`balances` table, whose primary key is `(user1_id, user2_id)`: add to the
keyed row if present, otherwise insert a new row. -/
def upsertBalance (now : ℕ) (u1 u2 : ℤ) (amount : ℚ) : List Balance → List Balance
  | [] => [⟨u1, u2, amount, now⟩]
  | b :: rest =>
      if b.user1ID = u1 ∧ b.user2ID = u2 then
        { b with balance := b.balance + amount, lastUpdated := now } :: rest
      else
        b :: upsertBalance now u1 u2 amount rest

/-- `balanceRepository.UpdateBalance`: canonicalize so `user1ID < user2ID`
(swap and negate the amount when given in reverse order), then upsert. -/
def updateBalance (now : ℕ) (tbl : List Balance) (user1ID user2ID : ℤ) (amount : ℚ) :
    List Balance :=
  if user1ID > user2ID then
    upsertBalance now user2ID user1ID (-amount) tbl
  else
    upsertBalance now user1ID user2ID amount tbl

/-- Read the stored balance of the row keyed `(u1, u2)`, `0` if absent
(`SELECT balance FROM balances WHERE user1_id = ? AND user2_id = ?`). -/
def getBalance : List Balance → ℤ → ℤ → ℚ
  | [], _, _ => 0
  | b :: rest, u1, u2 =>
      if b.user1ID = u1 ∧ b.user2ID = u2 then b.balance else getBalance rest u1 u2

/-- The balance-update loop of `expenseRepository.CreateExpense`. -/
def applyBalanceUpdates (now : ℕ) (tbl : List Balance) (updates : List BalanceUpdate) :
    List Balance :=
  updates.foldl (fun t u => updateBalance now t u.user1ID u.user2ID u.amount) tbl

/-- The persistent state touched by `expenseRepository.CreateExpense`: the
append-only expense/expense-split ledger and the pairwise balance table. -/
structure ServerState where
  expenses : List (Expense × List ExpenseSplit)
  balances : List Balance
deriving DecidableEq

/-- `expenseRepository.CreateExpense` (transaction body, successful path):
assign the generated expense id and creation time, insert the expense and its
splits, then apply every balance update through `UpdateBalance`. -/
def repoCreateExpense (now : ℕ) (st : ServerState) (expense : Expense)
    (splits : List ExpenseSplit) (balanceUpdates : List BalanceUpdate) :
    ServerState × Expense :=
  let e := { expense with id := (st.expenses.length : ℤ) + 1, createdAt := now }
  let inserted := splits.map (fun s => { s with expenseId := e.id })
  (⟨st.expenses ++ [(e, inserted)], applyBalanceUpdates now st.balances balanceUpdates⟩, e)

/-- Go-map lookup by email over the users fetched for a request (later
insertions win, matching map overwrite semantics). -/
def lookupUserByEmail (db : List User) (email : String) : Option User :=
  db.reverse.find? (fun u => u.email = email)

/-- `userRepository.GetUsersByEmails` (`WHERE email IN (...)`). -/
def getUsersByEmails (db : List User) (emails : List String) : List User :=
  db.filter (fun u => u.email ∈ emails)

/-- Go-map lookup by id over fetched users. -/
def lookupUserByID (db : List User) (id : ℤ) : Option User :=
  db.reverse.find? (fun u => u.id = id)

def resolveEqualSplits (db : List User) :
    List EqualSplitRequest → Except ExpenseErr (List EqualSplitRequest)
  | [] => .ok []
  | es :: rest =>
      match lookupUserByEmail db es.userEmail with
      | none => .error (.participantNotFound es.userEmail)
      | some u =>
          match resolveEqualSplits db rest with
          | .error e => .error e
          | .ok rest2 => .ok ({ es with userID := u.id } :: rest2)

def resolvePercentageSplits (db : List User) :
    List PercentageSplitRequest → Except ExpenseErr (List PercentageSplitRequest)
  | [] => .ok []
  | ps :: rest =>
      match lookupUserByEmail db ps.userEmail with
      | none => .error (.participantNotFound ps.userEmail)
      | some u =>
          match resolvePercentageSplits db rest with
          | .error e => .error e
          | .ok rest2 => .ok ({ ps with userID := u.id } :: rest2)

def resolveManualSplits (db : List User) :
    List ManualSplitRequest → Except ExpenseErr (List ManualSplitRequest)
  | [] => .ok []
  | ms :: rest =>
      match lookupUserByEmail db ms.userEmail with
      | none => .error (.participantNotFound ms.userEmail)
      | some u =>
          match resolveManualSplits db rest with
          | .error e => .error e
          | .ok rest2 => .ok ({ ms with userID := u.id } :: rest2)

/-- `expenseService.resolveUserEmailsToIDs`: resolve the creator first, then
populate the `userID` of every split of the selected method, failing on any
email with no account. -/
def resolveUserEmailsToIDs (db : List User) (req : CreateExpenseRequest) :
    Except ExpenseErr CreateExpenseRequest :=
  match lookupUserByEmail db req.createdByEmail with
  | none => .error (.createdByNotFound req.createdByEmail)
  | some creator =>
      if req.splitMethod = splitMethodEqual then
        (resolveEqualSplits db req.equalSplits).map
          (fun l => { req with createdByID := creator.id, equalSplits := l })
      else if req.splitMethod = splitMethodPercentage then
        (resolvePercentageSplits db req.percentageSplits).map
          (fun l => { req with createdByID := creator.id, percentageSplits := l })
      else if req.splitMethod = splitMethodManual then
        (resolveManualSplits db req.manualSplits).map
          (fun l => { req with createdByID := creator.id, manualSplits := l })
      else
        .ok { req with createdByID := creator.id }

/-- `expenseService.CreateExpense`: resolve emails, run the split strategy,
check that the paid amounts sum to the rounded total, compute balance updates,
and commit through the repository. -/
def serviceCreateExpense (db : List User) (now : ℕ) (st : ServerState)
    (req0 : CreateExpenseRequest) : Except ExpenseErr (ServerState × Expense) :=
  match resolveUserEmailsToIDs db req0 with
  | .error e => .error e
  | .ok req =>
      let expense : Expense :=
        ⟨0, req.description, req.tag, req.totalAmount, req.createdByID, 0⟩
      match calculateExpenseSplits req with
      | .error e => .error e
      | .ok splits =>
          let totalAmountPaidInSplits := (splits.map (fun s => s.amountPaid)).sum
          if roundToTwoDecimalPlaces totalAmountPaidInSplits ≠
              roundToTwoDecimalPlaces req.totalAmount then
            .error (.paidMismatch totalAmountPaidInSplits req.totalAmount)
          else
            .ok (repoCreateExpense now st expense splits (calculateBalanceUpdates expense splits))

/-- `CreateExpense` as observed by a caller holding the state: on error the
state is returned unchanged and no expense is produced. -/
def runCreateExpense (db : List User) (now : ℕ) (st : ServerState)
    (req : CreateExpenseRequest) : ServerState × Option Expense :=
  match serviceCreateExpense db now st req with
  | .ok (st2, e) => (st2, some e)
  | .error _ => (st, none)

/-- States reachable from the empty ledger and balance table by successful
`CreateExpense` operations (the user table may change freely between calls). -/
inductive Reachable : ServerState → Prop where
  | init : Reachable ⟨[], []⟩
  | step {db : List User} {now : ℕ} {st : ServerState} {req : CreateExpenseRequest}
      {out : ServerState × Expense} :
      Reachable st → serviceCreateExpense db now st req = .ok out → Reachable out.1

/-- Rows ordered most recently updated first (`ORDER BY last_updated DESC`). -/
def recentFirst (a b : Balance) : Prop := b.lastUpdated ≤ a.lastUpdated

instance : DecidableRel recentFirst := fun a b => Nat.decLe b.lastUpdated a.lastUpdated

instance : IsTotal Balance recentFirst := ⟨fun a b => Nat.le_total b.lastUpdated a.lastUpdated⟩

instance : IsTrans Balance recentFirst :=
  ⟨fun _ _ _ h1 h2 => Nat.le_trans h2 h1⟩

/-- `balanceRepository.GetBalancesByUserID`: every row where the user is
either side of the pair, ordered by `last_updated` descending. -/
def getBalancesByUserID (tbl : List Balance) (userID : ℤ) : List Balance :=
  List.insertionSort recentFirst
    (tbl.filter (fun b => b.user1ID = userID ∨ b.user2ID = userID))

/-- `service.UserBalanceView`. -/
structure UserBalanceView where
  withUserEmail : String
  withUserName : String
  amount : ℚ
  lastUpdated : ℕ
deriving DecidableEq

/-- The per-row view constructed by `GetOutstandingBalancesForUser`: the
counterparty is the other side of the pair, and the stored balance is negated
when the requesting user is `user2`. -/
def balanceRowView (db : List User) (userID : ℤ) (b : Balance) : UserBalanceView :=
  let otherUserID := if b.user1ID = userID then b.user2ID else b.user1ID
  let balanceAmount := if b.user1ID = userID then b.balance else -b.balance
  match lookupUserByID db otherUserID with
  | some u => ⟨u.email, u.name, roundToTwoDecimalPlaces balanceAmount, b.lastUpdated⟩
  | none =>
      ⟨"unknown_user_" ++ toString otherUserID, "Unknown",
        roundToTwoDecimalPlaces balanceAmount, b.lastUpdated⟩

/-- `expenseService.GetOutstandingBalancesForUser`: resolve the user's email,
fetch their balance rows, and render one signed view per row. -/
def getOutstandingBalancesForUser (db : List User) (st : ServerState) (userEmail : String) :
    Except ExpenseErr (List UserBalanceView) :=
  match (getUsersByEmails db [userEmail]).head? with
  | none => .error (.userNotFound userEmail)
  | some user =>
      .ok ((getBalancesByUserID st.balances user.id).map (balanceRowView db user.id))

/-- The duplicate-detection loop of `validateCreateExpenseRequest`: walk the
emails keeping the set of already-seen ones, failing on the first repeat. -/
def checkDuplicateEmails (seen : List String) : List String → Except ExpenseErr (List String)
  | [] => .ok seen
  | e :: rest =>
      if e ∈ seen then .error (.duplicateEmail e)
      else checkDuplicateEmails (e :: seen) rest

/-- The per-method section of `validateCreateExpenseRequest`: non-emptiness,
the duplicate-email loop, and the percentage/manual total checks; yields the
set of participating emails seen by the loop. -/
def validateParticipatingEmails (req : CreateExpenseRequest) : Except ExpenseErr (List String) :=
  if req.splitMethod = splitMethodEqual then
    if req.equalSplits = [] then .error .handlerEqualNoParticipants
    else checkDuplicateEmails [] (req.equalSplits.map (fun s => s.userEmail))
  else if req.splitMethod = splitMethodPercentage then
    if req.percentageSplits = [] then .error .handlerPercentageNoPercentages
    else
      match checkDuplicateEmails [] (req.percentageSplits.map (fun s => s.userEmail)) with
      | .error e => .error e
      | .ok seen =>
          let totalPercentage := (req.percentageSplits.map (fun s => s.percentage)).sum
          if totalPercentage ≠ (100 : ℚ) then .error .handlerPercentageNot100
          else .ok seen
  else if req.splitMethod = splitMethodManual then
    if req.manualSplits = [] then .error .handlerManualNoAmounts
    else
      match checkDuplicateEmails [] (req.manualSplits.map (fun s => s.userEmail)) with
      | .error e => .error e
      | .ok seen =>
          let totalOwed := (req.manualSplits.map (fun s => s.amountOwed)).sum
          if totalOwed ≠ req.totalAmount then
            .error (.handlerManualTotalMismatch totalOwed req.totalAmount)
          else .ok seen
  else
    .error .unsupportedSplitMethod

/-- `ExpenseHandler.validateCreateExpenseRequest`: required fields, the
per-method checks, and membership of the creator among the participants. -/
def validateCreateExpenseRequest (req : CreateExpenseRequest) : Except ExpenseErr Unit :=
  if req.description = "" ∨ req.totalAmount ≤ 0 ∨ req.createdByEmail = "" ∨ req.splitMethod = ""
  then
    .error .requiredFieldsMissing
  else
    match validateParticipatingEmails req with
    | .error e => .error e
    | .ok participatingEmails =>
        if req.createdByEmail ∈ participatingEmails then .ok ()
        else .error (.createdByNotInParticipants req.createdByEmail)

/-- `ExpenseHandler.CreateExpenseHandler` (after decoding): validation runs
first; the expense service is only invoked when validation succeeds. -/
def handlerCreateExpense (db : List User) (now : ℕ) (st : ServerState)
    (req : CreateExpenseRequest) : Except ExpenseErr (ServerState × Expense) :=
  match validateCreateExpenseRequest req with
  | .error e => .error e
  | .ok _ => serviceCreateExpense db now st req

/-- The participant email list of the split method selected by a request
(empty for an unrecognized method, whose splits are never inspected). -/
def methodParticipantEmails (req : CreateExpenseRequest) : List String :=
  if req.splitMethod = splitMethodEqual then req.equalSplits.map (fun s => s.userEmail)
  else if req.splitMethod = splitMethodPercentage then
    req.percentageSplits.map (fun s => s.userEmail)
  else if req.splitMethod = splitMethodManual then
    req.manualSplits.map (fun s => s.userEmail)
  else []

/-- The balance deltas of spec section 4.3, written as the claim states them:
one delta per split whose participant is not the creator and whose net
`amount_owed - amount_paid` is nonzero, in split order. -/
def balanceDeltasSpec (creator : ℤ) (splits : List ExpenseSplit) : List BalanceUpdate :=
  splits.filterMap (fun s =>
    if creator ≠ s.userID ∧ s.amountOwed - s.amountPaid ≠ 0 then
      some ⟨creator, s.userID, s.amountOwed - s.amountPaid⟩
    else
      none)

/-- The change `UpdateBalance a b x` makes to the row keyed `(v1, v2)`. -/
def pairDelta (a b : ℤ) (x : ℚ) (v1 v2 : ℤ) : ℚ :=
  if a > b then
    (if b = v1 ∧ a = v2 then -x else 0)
  else
    (if a = v1 ∧ b = v2 then x else 0)

/-- The `amount_paid` entries of the split list selected by a request's
method (empty for an unrecognized method). -/
def methodPaidAmounts (req : CreateExpenseRequest) : List ℚ :=
  if req.splitMethod = splitMethodEqual then
    req.equalSplits.map (fun es => es.amountPaid)
  else if req.splitMethod = splitMethodPercentage then
    req.percentageSplits.map (fun ps => ps.amountPaid)
  else if req.splitMethod = splitMethodManual then
    req.manualSplits.map (fun ms => ms.amountPaid)
  else []

/-- The exact contribution of one recorded expense to the canonical balance
row `(u1, u2)` (with `u1 < u2`): the nets of `u2`'s splits when `u1` created
the expense, minus the nets of `u1`'s splits when `u2` created it. -/
def expensePairDelta (u1 u2 : ℤ) (e : Expense) (splits : List ExpenseSplit) : ℚ :=
  (splits.map (fun s =>
    (if e.createdBy = u1 ∧ s.userID = u2 then s.amountOwed - s.amountPaid else 0) -
    (if e.createdBy = u2 ∧ s.userID = u1 then s.amountOwed - s.amountPaid else 0))).sum

/-- The pairwise balance predicted by claim C2, following the spec's words:
the sum over all expenses of (u1's amount_owed minus u1's amount_paid) minus
the symmetric term for u2. -/
def specPairBalanceFormula (u1 u2 : ℤ) (expenses : List (Expense × List ExpenseSplit)) : ℚ :=
  (expenses.map (fun p =>
    (p.2.map (fun s => if s.userID = u1 then s.amountOwed - s.amountPaid else 0)).sum -
    (p.2.map (fun s => if s.userID = u2 then s.amountOwed - s.amountPaid else 0)).sum)).sum

theorem mathRound_intCast (k : ℤ) : mathRound (k : ℚ) = k := by
  unfold mathRound
  have h0 : ⌊(k : ℚ) + 1/2⌋ = k := by
    rw [show ((k : ℚ) + 1/2) = (1/2 : ℚ) + (k : ℤ) by ring, Int.floor_add_int]
    norm_num
  have h1 : ⌊-(k : ℚ) + 1/2⌋ = -k := by
    rw [show (-(k : ℚ) + 1/2) = (1/2 : ℚ) + ((-k : ℤ) : ℚ) by push_cast; ring, Int.floor_add_int]
    norm_num
  by_cases h : (0 : ℚ) ≤ (k : ℚ)
  · rw [if_pos h, h0]
  · rw [if_neg h, h1]
    ring

theorem cents_roundToTwoDecimalPlaces (q : ℚ) : Cents (roundToTwoDecimalPlaces q) :=
  ⟨mathRound (q * 100), rfl⟩

theorem roundToTwoDecimalPlaces_cents {q : ℚ} (h : Cents q) :
    roundToTwoDecimalPlaces q = q := by
  obtain ⟨k, rfl⟩ := h
  unfold roundToTwoDecimalPlaces
  rw [show ((k : ℚ) / 100 * 100) = (k : ℚ) by ring, mathRound_intCast]

theorem cents_zero : Cents 0 := ⟨0, by norm_num⟩

theorem cents_add {a b : ℚ} (ha : Cents a) (hb : Cents b) : Cents (a + b) := by
  obtain ⟨j, rfl⟩ := ha
  obtain ⟨k, rfl⟩ := hb
  exact ⟨j + k, by push_cast; ring⟩

theorem cents_neg {a : ℚ} (ha : Cents a) : Cents (-a) := by
  obtain ⟨j, rfl⟩ := ha
  exact ⟨-j, by push_cast; ring⟩

theorem cents_sub {a b : ℚ} (ha : Cents a) (hb : Cents b) : Cents (a - b) := by
  rw [sub_eq_add_neg]
  exact cents_add ha (cents_neg hb)

theorem cents_natCast_mul {a : ℚ} (ha : Cents a) (n : ℕ) : Cents (a * n) := by
  obtain ⟨j, rfl⟩ := ha
  exact ⟨j * n, by push_cast; ring⟩

theorem cents_list_sum {l : List ℚ} (h : ∀ x ∈ l, Cents x) : Cents l.sum := by
  induction l with
  | nil => exact cents_zero
  | cons a t ih =>
      rw [List.sum_cons]
      exact cents_add (h a (List.mem_cons_self a t)) (ih fun x hx => h x (List.mem_cons_of_mem a hx))

theorem noHalfCent_of_cents {q : ℚ} (h : Cents q) : NoHalfCent q := by
  obtain ⟨k, rfl⟩ := h
  intro m hm
  rw [show ((k : ℚ) / 100 * 100) = (k : ℚ) by ring] at hm
  have h2 : ((2 * (k - m) : ℤ) : ℚ) = 1 := by push_cast; linarith
  have h3 : (2 * (k - m) : ℤ) = 1 := by exact_mod_cast h2
  omega

theorem mathRound_eq_floor {q : ℚ} (h : ∀ m : ℤ, q ≠ (m : ℚ) + 1/2) :
    mathRound q = ⌊q + 1/2⌋ := by
  unfold mathRound
  by_cases hq : 0 ≤ q
  · rw [if_pos hq]
  · rw [if_neg hq]
    have hnot : q - 1/2 ≠ (⌊q - 1/2⌋ : ℚ) := by
      intro he
      exact h ⌊q - 1/2⌋ (by linarith)
    have hceil : ⌈q - 1/2⌉ = ⌊q - 1/2⌋ + 1 := by
      rcases Int.lt_or_le (⌊q - 1/2⌋ : ℤ) ⌈q - 1/2⌉ with hlt | hle
      · have := Int.ceil_le_floor_add_one (q - 1/2)
        omega
      · have h1 : (⌈q - 1/2⌉ : ℚ) ≤ (⌊q - 1/2⌋ : ℚ) := by exact_mod_cast hle
        have h2 := Int.le_ceil (q - 1/2)
        have h3 := Int.floor_le (q - 1/2)
        have : q - 1/2 = (⌊q - 1/2⌋ : ℚ) := le_antisymm (by linarith) h3
        exact absurd this hnot
    have hneg : -⌊-q + 1/2⌋ = ⌈q - 1/2⌉ := by
      rw [show (-q + 1/2 : ℚ) = -(q - 1/2) by ring]
      rw [Int.floor_neg]
      ring
    rw [hneg, hceil]
    have : ⌊q - 1/2 + 1⌋ = ⌊q - 1/2⌋ + 1 := Int.floor_add_one (q - 1/2)
    rw [show (q + 1/2 : ℚ) = q - 1/2 + 1 by ring, this]

theorem roundToTwoDecimalPlaces_sub_cents {q c : ℚ} (hq : NoHalfCent q) (hc : Cents c) :
    roundToTwoDecimalPlaces (q - c) = roundToTwoDecimalPlaces q - c := by
  obtain ⟨k, rfl⟩ := hc
  unfold roundToTwoDecimalPlaces
  have h1 : (q - (k : ℚ) / 100) * 100 = q * 100 - (k : ℚ) := by ring
  rw [h1]
  have hq' : ∀ m : ℤ, q * 100 - (k : ℚ) ≠ (m : ℚ) + 1/2 := by
    intro m hm
    exact hq (m + k) (by push_cast; linarith)
  rw [mathRound_eq_floor hq', mathRound_eq_floor hq]
  rw [show (q * 100 - (k : ℚ) + 1/2) = (q * 100 + 1/2) + (-k : ℤ) by push_cast; ring]
  rw [Int.floor_add_int]
  push_cast
  ring

theorem getBalance_upsertBalance (now : ℕ) (u1 u2 : ℤ) (amt : ℚ) (tbl : List Balance)
    (v1 v2 : ℤ) :
    getBalance (upsertBalance now u1 u2 amt tbl) v1 v2 =
      getBalance tbl v1 v2 + (if u1 = v1 ∧ u2 = v2 then amt else 0) := by
  induction tbl with
  | nil =>
      show getBalance [⟨u1, u2, amt, now⟩] v1 v2 = _
      simp only [getBalance]
      by_cases h : u1 = v1 ∧ u2 = v2
      · rw [if_pos h, zero_add]
      · rw [if_neg h, zero_add]
  | cons b rest ih =>
      unfold upsertBalance
      by_cases hb : b.user1ID = u1 ∧ b.user2ID = u2
      · rw [if_pos hb]
        show getBalance (⟨b.user1ID, b.user2ID, b.balance + amt, now⟩ :: rest) v1 v2 = _
        simp only [getBalance]
        by_cases hbv : b.user1ID = v1 ∧ b.user2ID = v2
        · have huv : u1 = v1 ∧ u2 = v2 := ⟨hb.1.symm.trans hbv.1, hb.2.symm.trans hbv.2⟩
          rw [if_pos hbv, if_pos hbv, if_pos huv]
        · have huv : ¬(u1 = v1 ∧ u2 = v2) := fun hc =>
            hbv ⟨hb.1.trans hc.1, hb.2.trans hc.2⟩
          rw [if_neg hbv, if_neg hbv, if_neg huv, add_zero]
      · rw [if_neg hb]
        simp only [getBalance]
        by_cases hbv : b.user1ID = v1 ∧ b.user2ID = v2
        · have huv : ¬(u1 = v1 ∧ u2 = v2) := fun hc =>
            hb ⟨hbv.1.trans hc.1.symm, hbv.2.trans hc.2.symm⟩
          rw [if_pos hbv, if_pos hbv, if_neg huv, add_zero]
        · rw [if_neg hbv, if_neg hbv]
          exact ih

theorem getBalance_updateBalance (now : ℕ) (tbl : List Balance) (a b : ℤ) (x : ℚ)
    (v1 v2 : ℤ) :
    getBalance (updateBalance now tbl a b x) v1 v2 =
      getBalance tbl v1 v2 + pairDelta a b x v1 v2 := by
  unfold updateBalance pairDelta
  by_cases h : a > b
  · simp [h, getBalance_upsertBalance]
  · simp [h, getBalance_upsertBalance]

theorem getBalance_applyBalanceUpdates (now : ℕ) (v1 v2 : ℤ) :
    ∀ (updates : List BalanceUpdate) (tbl : List Balance),
      getBalance (applyBalanceUpdates now tbl updates) v1 v2 =
        getBalance tbl v1 v2 +
          (updates.map (fun u => pairDelta u.user1ID u.user2ID u.amount v1 v2)).sum := by
  intro updates
  induction updates with
  | nil => intro tbl; simp [applyBalanceUpdates]
  | cons u rest ih =>
      intro tbl
      have step : applyBalanceUpdates now tbl (u :: rest) =
          applyBalanceUpdates now (updateBalance now tbl u.user1ID u.user2ID u.amount) rest := by
        simp [applyBalanceUpdates]
      rw [step, ih, getBalance_updateBalance]
      simp [List.map_cons, List.sum_cons]
      ring

theorem calculateBalanceUpdates_foldl (e : Expense) :
    ∀ (l : List ExpenseSplit) (acc : List BalanceUpdate),
      (l.foldl
        (fun balanceUpdates split =>
          if e.createdBy ≠ split.userID then
            let netAmountOwedToCreator := split.amountOwed - split.amountPaid
            if netAmountOwedToCreator ≠ 0 then
              balanceUpdates ++ [⟨e.createdBy, split.userID, netAmountOwedToCreator⟩]
            else
              balanceUpdates
          else
            balanceUpdates)
        acc) = acc ++ balanceDeltasSpec e.createdBy l := by
  intro l
  induction l with
  | nil => intro acc; simp [balanceDeltasSpec]
  | cons s t ih =>
      intro acc
      rw [List.foldl_cons]
      show List.foldl _
        (if e.createdBy ≠ s.userID then
          (if s.amountOwed - s.amountPaid ≠ 0 then
            acc ++ [⟨e.createdBy, s.userID, s.amountOwed - s.amountPaid⟩]
          else acc)
        else acc) t = _
      by_cases h1 : e.createdBy ≠ s.userID
      · by_cases h2 : s.amountOwed - s.amountPaid ≠ 0
        · rw [if_pos h1, if_pos h2, ih]
          have hc : e.createdBy ≠ s.userID ∧ s.amountOwed - s.amountPaid ≠ 0 := ⟨h1, h2⟩
          simp [balanceDeltasSpec, List.filterMap_cons, hc]
        · rw [if_pos h1, if_neg h2, ih]
          have hc : ¬(e.createdBy ≠ s.userID ∧ s.amountOwed - s.amountPaid ≠ 0) :=
            fun hcc => h2 hcc.2
          simp [balanceDeltasSpec, List.filterMap_cons, hc]
      · rw [if_neg h1, ih]
        have hc : ¬(e.createdBy ≠ s.userID ∧ s.amountOwed - s.amountPaid ≠ 0) :=
          fun hcc => h1 hcc.1
        simp [balanceDeltasSpec, List.filterMap_cons, hc]

theorem calculateBalanceUpdates_eq_spec (e : Expense) (splits : List ExpenseSplit) :
    calculateBalanceUpdates e splits = balanceDeltasSpec e.createdBy splits := by
  have h := calculateBalanceUpdates_foldl e splits []
  simpa [calculateBalanceUpdates] using h

theorem service_ok_decompose (db : List User) (now : ℕ) (st : ServerState)
    (req : CreateExpenseRequest) (out : ServerState × Expense)
    (h : serviceCreateExpense db now st req = .ok out) :
    ∃ req2 splits,
      resolveUserEmailsToIDs db req = .ok req2 ∧
      calculateExpenseSplits req2 = .ok splits ∧
      out = repoCreateExpense now st
        ⟨0, req2.description, req2.tag, req2.totalAmount, req2.createdByID, 0⟩ splits
        (calculateBalanceUpdates
          ⟨0, req2.description, req2.tag, req2.totalAmount, req2.createdByID, 0⟩ splits) := by
  cases hres : resolveUserEmailsToIDs db req with
  | error e =>
      rw [serviceCreateExpense.eq_def, hres] at h
      exact Except.noConfusion h
  | ok req2 =>
      rw [serviceCreateExpense.eq_def, hres] at h
      simp only at h
      cases hsplits : calculateExpenseSplits req2 with
      | error e =>
          rw [hsplits] at h
          exact Except.noConfusion h
      | ok splits =>
          rw [hsplits] at h
          simp only at h
          by_cases hpaid : roundToTwoDecimalPlaces ((splits.map (fun s => s.amountPaid)).sum) ≠
              roundToTwoDecimalPlaces req2.totalAmount
          · rw [if_pos hpaid] at h
            exact Except.noConfusion h
          · rw [if_neg hpaid] at h
            exact ⟨req2, splits, rfl, hsplits, (Except.ok.inj h).symm⟩

/-- Claim C4: the balance-delta calculation used by the active `CreateExpense`
path emits, for each split whose user differs from the creator and whose net
`owed - paid` is nonzero, exactly one update `{creator, participant, net}`, in
split order; creator splits and zero-net splits emit nothing.  Moreover a
successful `CreateExpense` applies exactly these deltas to the balance table,
so the alternative highest-positive-balance settlement strategy present in the
source is not exercised on this path. -/
theorem claim_C4_balance_deltas :
    (∀ (e : Expense) (splits : List ExpenseSplit),
        calculateBalanceUpdates e splits = balanceDeltasSpec e.createdBy splits) ∧
    (∀ (db : List User) (now : ℕ) (st : ServerState) (req : CreateExpenseRequest)
        (out : ServerState × Expense),
        serviceCreateExpense db now st req = .ok out →
        ∃ req2 splits,
          resolveUserEmailsToIDs db req = .ok req2 ∧
          calculateExpenseSplits req2 = .ok splits ∧
          out.1.balances =
            applyBalanceUpdates now st.balances (balanceDeltasSpec req2.createdByID splits)) := by
  constructor
  · intro e splits
    exact calculateBalanceUpdates_eq_spec e splits
  · intro db now st req out h
    obtain ⟨req2, splits, hres, hsplits, hout⟩ := service_ok_decompose db now st req out h
    refine ⟨req2, splits, hres, hsplits, ?_⟩
    rw [hout]
    simp only [repoCreateExpense]
    rw [calculateBalanceUpdates_eq_spec]

/-- Claim C4 witness: the moreover-part instantiated on a concrete successful
request. -/
theorem claim_C4_balance_deltas_witness :
    ∃ req2 splits,
      resolveUserEmailsToIDs [⟨1, "A", "a"⟩, ⟨2, "B", "b"⟩]
        (⟨"d", "t", 10, "a", 0, "manual", [], [],
          [⟨"a", 0, 5, 10⟩, ⟨"b", 0, 5, 0⟩]⟩ : CreateExpenseRequest) = .ok req2 ∧
      calculateExpenseSplits req2 = .ok splits ∧
      (⟨[(⟨1, "d", "t", 10, 1, 0⟩, [⟨0, 1, 1, 10, 5⟩, ⟨0, 1, 2, 0, 5⟩])],
          [⟨1, 2, 5, 0⟩]⟩ : ServerState).balances =
        applyBalanceUpdates 0 (⟨[], []⟩ : ServerState).balances
          (balanceDeltasSpec req2.createdByID splits) :=
  claim_C4_balance_deltas.2 [⟨1, "A", "a"⟩, ⟨2, "B", "b"⟩] 0 ⟨[], []⟩
    ⟨"d", "t", 10, "a", 0, "manual", [], [], [⟨"a", 0, 5, 10⟩, ⟨"b", 0, 5, 0⟩]⟩
    (⟨⟨[(⟨1, "d", "t", 10, 1, 0⟩, [⟨0, 1, 1, 10, 5⟩, ⟨0, 1, 2, 0, 5⟩])], [⟨1, 2, 5, 0⟩]⟩,
      ⟨1, "d", "t", 10, 1, 0⟩⟩)
    (by decide)

/-- Claim C9: `UpdateBalance(a,b,x)` and `UpdateBalance(b,a,-x)` perform the
same table mutation for distinct users, and every row written from distinct
inputs keeps the canonical order `user1_id < user2_id`. -/
theorem claim_C9_canonicalization (now : ℕ) (tbl : List Balance) (a b : ℤ) (x : ℚ)
    (hab : a ≠ b) :
    updateBalance now tbl a b x = updateBalance now tbl b a (-x) ∧
    ((∀ r ∈ tbl, r.user1ID < r.user2ID) →
      ∀ r ∈ updateBalance now tbl a b x, r.user1ID < r.user2ID) := by
  have rows : ∀ (u1 u2 : ℤ), u1 < u2 → ∀ (amt : ℚ) (t : List Balance),
      (∀ r ∈ t, r.user1ID < r.user2ID) →
      ∀ r ∈ upsertBalance now u1 u2 amt t, r.user1ID < r.user2ID := by
    intro u1 u2 h12 amt t
    induction t with
    | nil =>
        intro _ r hr
        simp [upsertBalance] at hr
        rw [hr]
        exact h12
    | cons c rest ih =>
        intro ht r hr
        by_cases hc : c.user1ID = u1 ∧ c.user2ID = u2
        · simp only [upsertBalance, if_pos hc, List.mem_cons] at hr
          rcases hr with hr | hr
          · rw [hr]
            simpa [hc.1, hc.2] using h12
          · exact ht r (List.mem_cons_of_mem c hr)
        · simp only [upsertBalance, if_neg hc, List.mem_cons] at hr
          rcases hr with hr | hr
          · rw [hr]
            exact ht c (List.mem_cons_self c rest)
          · exact ih (fun s hs => ht s (List.mem_cons_of_mem c hs)) r hr
  rcases lt_or_gt_of_ne hab with hlt | hgt
  · constructor
    · unfold updateBalance
      rw [if_neg (by omega : ¬a > b), if_pos (by omega : b > a), neg_neg]
    · intro ht
      unfold updateBalance
      rw [if_neg (by omega : ¬a > b)]
      exact rows a b hlt x tbl ht
  · constructor
    · unfold updateBalance
      rw [if_pos hgt, if_neg (by omega : ¬b > a)]
    · intro ht
      unfold updateBalance
      rw [if_pos hgt]
      exact rows b a (by omega) (-x) tbl ht

/-- Claim C9 witness: the table-mutation equality at a concrete instance. -/
theorem claim_C9_canonicalization_witness :
    updateBalance 0 [] 3 5 7 = updateBalance 0 [] 5 3 (-7) :=
  (claim_C9_canonicalization 0 [] 3 5 7 (by decide)).1

/-- Claim C6 counterexample: starting from the empty table,
`UpdateBalance(5,3,+10)` then `UpdateBalance(3,5,+10)` leaves pair `(3,5)` at
balance `0`, while a single `UpdateBalance(3,5,+20)` leaves it at `20`, so the
two are not equivalent. -/
theorem claim_C6_counterexample :
    getBalance (updateBalance 1 (updateBalance 0 [] 5 3 10) 3 5 10) 3 5 = 0 ∧
    getBalance (updateBalance 0 [] 3 5 20) 3 5 = 20 ∧ (0 : ℚ) ≠ 20 := by
  refine ⟨by decide, by decide, by norm_num⟩

/-- Claim C6 amended: `UpdateBalance(5,3,+10)` canonicalizes to
`(3,5,-10)` under sign-flip-on-swap, so following it with
`UpdateBalance(3,5,+10)` leaves the stored balance of pair `(3,5)` unchanged;
the sequence equivalent to a single `UpdateBalance(3,5,+20)` on that pair is
`UpdateBalance(5,3,-10)` then `UpdateBalance(3,5,+10)`. -/
theorem claim_C6_canonicalization_amended (tbl : List Balance) (n1 n2 n3 : ℕ) :
    getBalance (updateBalance n2 (updateBalance n1 tbl 5 3 10) 3 5 10) 3 5 =
      getBalance tbl 3 5 ∧
    getBalance (updateBalance n2 (updateBalance n1 tbl 5 3 (-10)) 3 5 10) 3 5 =
      getBalance (updateBalance n3 tbl 3 5 20) 3 5 := by
  constructor
  · rw [getBalance_updateBalance, getBalance_updateBalance]
    have h1 : pairDelta 5 3 (10 : ℚ) 3 5 = -10 := by decide
    have h2 : pairDelta 3 5 (10 : ℚ) 3 5 = 10 := by decide
    rw [h1, h2]
    ring
  · rw [getBalance_updateBalance, getBalance_updateBalance, getBalance_updateBalance]
    have h1 : pairDelta 5 3 (-10 : ℚ) 3 5 = 10 := by decide
    have h2 : pairDelta 3 5 (10 : ℚ) 3 5 = 10 := by decide
    have h3 : pairDelta 3 5 (20 : ℚ) 3 5 = 20 := by decide
    rw [h1, h2, h3]
    ring

theorem map_enumFrom_of_ne_zero {α β : Type} (f : ℕ × α → β) (g : α → β)
    (hfg : ∀ i a, i ≠ 0 → f (i, a) = g a) :
    ∀ (l : List α) (k : ℕ), k ≠ 0 → (l.enumFrom k).map f = l.map g := by
  intro l
  induction l with
  | nil => intro k hk; simp
  | cons a t ih =>
      intro k hk
      rw [List.enumFrom_cons, List.map_cons, List.map_cons, hfg k a hk, ih (k + 1) k.succ_ne_zero]

theorem sum_map_const {α : Type} (l : List α) (a : ℚ) :
    (l.map (fun _ => a)).sum = l.length * a := by
  induction l with
  | nil => simp
  | cons x t ih =>
      rw [List.map_cons, List.sum_cons, ih, List.length_cons]
      push_cast
      ring

theorem cents_sum_of_cents_owed (l : List ExpenseSplit)
    (h : ∀ s ∈ l, Cents s.amountOwed) : Cents ((l.map (fun s => s.amountOwed)).sum) := by
  refine cents_list_sum ?_
  intro x hx
  rcases List.mem_map.1 hx with ⟨s, hs, rfl⟩
  exact h s hs

theorem equal_ok_sum (req : CreateExpenseRequest) (splits : List ExpenseSplit)
    (h : equalSplitStrategyCalculateSplits req = .ok splits) :
    (splits.map (fun s => s.amountOwed)).sum = roundToTwoDecimalPlaces req.totalAmount := by
  unfold equalSplitStrategyCalculateSplits at h
  by_cases hnil : req.equalSplits = []
  · rw [if_pos hnil] at h
    exact Except.noConfusion h
  · rw [if_neg hnil] at h
    dsimp only at h
    split at h
    · exact Except.noConfusion h
    · next hchk =>
        have hL := Except.ok.inj h
        subst hL
        have hchk2 := not_not.1 hchk
        refine (roundToTwoDecimalPlaces_cents ?_).symm.trans hchk2
        refine cents_sum_of_cents_owed _ ?_
        intro s hs
        rcases List.mem_map.1 hs with ⟨p, _, rfl⟩
        dsimp only
        split_ifs
        · exact cents_roundToTwoDecimalPlaces _
        · exact cents_roundToTwoDecimalPlaces _

theorem manual_ok_sum (req : CreateExpenseRequest) (splits : List ExpenseSplit)
    (h : manualSplitStrategyCalculateSplits req = .ok splits) :
    (splits.map (fun s => s.amountOwed)).sum = roundToTwoDecimalPlaces req.totalAmount := by
  unfold manualSplitStrategyCalculateSplits at h
  by_cases hnil : req.manualSplits = []
  · rw [if_pos hnil] at h
    exact Except.noConfusion h
  · rw [if_neg hnil] at h
    dsimp only at h
    split at h
    · exact Except.noConfusion h
    · next hchk =>
        have hL := Except.ok.inj h
        subst hL
        have hchk2 := not_not.1 hchk
        refine (roundToTwoDecimalPlaces_cents ?_).symm.trans hchk2
        refine cents_sum_of_cents_owed _ ?_
        intro s hs
        rcases List.mem_map.1 hs with ⟨ms, _, rfl⟩
        exact cents_roundToTwoDecimalPlaces _

theorem adjust_sum (T o0 : ℚ) (rest : List ℚ) (ho0 : Cents o0) (hr : ∀ x ∈ rest, Cents x)
    (hT : NoHalfCent T) :
    roundToTwoDecimalPlaces (o0 + roundToTwoDecimalPlaces (T - (o0 + rest.sum))) + rest.sum
      = roundToTwoDecimalPlaces T := by
  have hS : Cents (o0 + rest.sum) := cents_add ho0 (cents_list_sum hr)
  rw [roundToTwoDecimalPlaces_sub_cents hT hS]
  have hx : Cents (o0 + (roundToTwoDecimalPlaces T - (o0 + rest.sum))) :=
    cents_add ho0 (cents_sub (cents_roundToTwoDecimalPlaces _) hS)
  rw [roundToTwoDecimalPlaces_cents hx]
  ring

theorem percentage_ok_sum (req : CreateExpenseRequest) (splits : List ExpenseSplit)
    (hnh : NoHalfCent req.totalAmount)
    (h : percentageSplitStrategyCalculateSplits req = .ok splits) :
    (splits.map (fun s => s.amountOwed)).sum = roundToTwoDecimalPlaces req.totalAmount := by
  unfold percentageSplitStrategyCalculateSplits at h
  by_cases hnil : req.percentageSplits = []
  · rw [if_pos hnil] at h
    exact Except.noConfusion h
  · rw [if_neg hnil] at h
    rcases List.exists_cons_of_ne_nil hnil with ⟨p0, pr, hl⟩
    rw [hl] at h
    dsimp only at h
    split at h
    · exact Except.noConfusion h
    · rw [List.map_cons] at h
      split at h
      · next hcond =>
          have hL := Except.ok.inj h
          subst hL
          rw [List.map_cons, List.sum_cons]
          dsimp only
          rw [List.map_cons, List.sum_cons]
          have hrest : ∀ x ∈ (pr.map (fun ps =>
              ExpenseSplit.mk 0 0 ps.userID (roundToTwoDecimalPlaces ps.amountPaid)
                (roundToTwoDecimalPlaces
                  (req.totalAmount * (ps.percentage / 100))))).map (fun s => s.amountOwed),
              Cents x := by
            intro x hx
            rcases List.mem_map.1 hx with ⟨s, hs, rfl⟩
            rcases List.mem_map.1 hs with ⟨ps, _, rfl⟩
            exact cents_roundToTwoDecimalPlaces _
          exact adjust_sum req.totalAmount
            (roundToTwoDecimalPlaces (req.totalAmount * (p0.percentage / 100))) _
            (cents_roundToTwoDecimalPlaces _) hrest hnh
      · next hcond =>
          have hL := Except.ok.inj h
          subst hL
          rw [List.map_cons, List.sum_cons]
          dsimp only
          have hne : (ExpenseSplit.mk 0 0 p0.userID (roundToTwoDecimalPlaces p0.amountPaid)
              (roundToTwoDecimalPlaces (req.totalAmount * (p0.percentage / 100)))) ::
              pr.map (fun ps =>
                ExpenseSplit.mk 0 0 ps.userID (roundToTwoDecimalPlaces ps.amountPaid)
                  (roundToTwoDecimalPlaces (req.totalAmount * (ps.percentage / 100)))) ≠ [] := by
            simp
          have hdiff : roundToTwoDecimalPlaces (req.totalAmount -
              (roundToTwoDecimalPlaces (req.totalAmount * (p0.percentage / 100)) +
                ((pr.map (fun ps =>
                  ExpenseSplit.mk 0 0 ps.userID (roundToTwoDecimalPlaces ps.amountPaid)
                    (roundToTwoDecimalPlaces (req.totalAmount * (ps.percentage / 100))))).map
                  (fun s => s.amountOwed)).sum)) = 0 := by
            rcases not_and_or.1 hcond with hc | hc
            · have := not_not.1 hc
              rw [List.map_cons, List.sum_cons] at this
              exact this
            · exact absurd (not_not.1 hc) hne
          have hS : Cents (roundToTwoDecimalPlaces (req.totalAmount * (p0.percentage / 100)) +
              ((pr.map (fun ps =>
                ExpenseSplit.mk 0 0 ps.userID (roundToTwoDecimalPlaces ps.amountPaid)
                  (roundToTwoDecimalPlaces (req.totalAmount * (ps.percentage / 100))))).map
                (fun s => s.amountOwed)).sum) := by
            refine cents_add (cents_roundToTwoDecimalPlaces _) ?_
            refine cents_list_sum ?_
            intro x hx
            rcases List.mem_map.1 hx with ⟨s, hs, rfl⟩
            rcases List.mem_map.1 hs with ⟨ps, _, rfl⟩
            exact cents_roundToTwoDecimalPlaces _
          rw [roundToTwoDecimalPlaces_sub_cents hnh hS] at hdiff
          linarith [hdiff]

/-- Claim C1 counterexample: for the percentage strategy with a single 100%
participant and total `0.005` (a half-cent, rounded up to `0.01`), the residual
adjustment drives the first participant's owed amount to `0`, so the strategy
returns a split list whose owed sum `0` differs from
`round2(total) = 0.01`. -/
theorem claim_C1_counterexample :
    calculateExpenseSplits
        ⟨"d", "t", 1/200, "a", 0, "percentage", [], [⟨"a", 0, 100, 1/200⟩], []⟩ =
      .ok [⟨0, 0, 0, 1/100, 0⟩] ∧
    (([⟨0, 0, 0, 1/100, 0⟩] : List ExpenseSplit).map (fun s => s.amountOwed)).sum = 0 ∧
    roundToTwoDecimalPlaces (1/200) = 1/100 ∧ (0 : ℚ) ≠ 1/100 :=
  ⟨by decide, by decide, by decide, by decide⟩

/-- Claim C1 amended: for every request accepted by any of the three split
strategies whose total amount is not exactly midway between two cents
(in particular for every whole-cent total), the sum of `amount_owed` over the
returned splits equals `round2(total_amount)`.  (At half-cent totals the
percentage strategy can break conservation, see the counterexample.) -/
theorem claim_C1_conservation_amended (req : CreateExpenseRequest)
    (hnh : NoHalfCent req.totalAmount) (splits : List ExpenseSplit)
    (h : calculateExpenseSplits req = .ok splits) :
    (splits.map (fun s => s.amountOwed)).sum = roundToTwoDecimalPlaces req.totalAmount := by
  unfold calculateExpenseSplits at h
  split_ifs at h
  all_goals first
    | exact equal_ok_sum req splits h
    | exact percentage_ok_sum req splits hnh h
    | exact manual_ok_sum req splits h

/-- Claim C1 witness: the amended conservation theorem applied to a concrete
manual request. -/
theorem claim_C1_conservation_amended_witness :
    (([⟨0, 0, 0, 10, 5⟩, ⟨0, 0, 0, 0, 5⟩] : List ExpenseSplit).map
      (fun s => s.amountOwed)).sum = roundToTwoDecimalPlaces 10 :=
  claim_C1_conservation_amended
    ⟨"d", "t", 10, "a", 0, "manual", [], [], [⟨"a", 0, 5, 10⟩, ⟨"b", 0, 5, 0⟩]⟩
    (noHalfCent_of_cents ⟨1000, by norm_num⟩) _ (by decide)

theorem equal_check_passes (T : ℚ) (hnh : NoHalfCent T) (a : ℚ) (ha : Cents a) (rl : ℕ) :
    roundToTwoDecimalPlaces (roundToTwoDecimalPlaces (T - a * (rl : ℚ)) + (rl : ℚ) * a) =
      roundToTwoDecimalPlaces T := by
  have hc : Cents (a * (rl : ℚ)) := cents_natCast_mul ha rl
  rw [roundToTwoDecimalPlaces_sub_cents hnh hc]
  rw [show roundToTwoDecimalPlaces T - a * (rl : ℚ) + (rl : ℚ) * a =
    roundToTwoDecimalPlaces T from by ring]
  exact roundToTwoDecimalPlaces_cents (cents_roundToTwoDecimalPlaces T)

/-- Claim C8 counterexample: for total `0.025` split equally among 5
participants, `amountPerUser = round2(0.005) = 0.01`, the first participant is
assigned `round2(0.025 - 0.04) = -0.02`, the owed sum is `0.02`, yet
`round2(0.025) = 0.03`, so the equal strategy takes its rounding-error failure
branch on a non-empty participant list. -/
theorem claim_C8_counterexample :
    (([⟨"a", 0, 1/40⟩, ⟨"b", 0, 0⟩, ⟨"c", 0, 0⟩, ⟨"d", 0, 0⟩, ⟨"e", 0, 0⟩] :
        List EqualSplitRequest) ≠ []) ∧
    equalSplitStrategyCalculateSplits
        ⟨"d", "t", 1/40, "a", 0, "equal",
          [⟨"a", 0, 1/40⟩, ⟨"b", 0, 0⟩, ⟨"c", 0, 0⟩, ⟨"d", 0, 0⟩, ⟨"e", 0, 0⟩], [], []⟩ =
      .error (.equalRoundingError (1/50) (1/40)) :=
  ⟨by decide, by decide⟩

/-- Claim C8 amended: the equal strategy rejects the empty participant list,
and for every non-empty participant list and every total amount that is not
exactly midway between two cents (in particular every whole-cent total) its
rounding-error failure branch is unreachable.  (Half-cent totals can reach the
branch, see the counterexample.) -/
theorem claim_C8_equal_safety_amended (req : CreateExpenseRequest) :
    (req.equalSplits = [] →
      equalSplitStrategyCalculateSplits req = .error .equalRequiresParticipants) ∧
    (∀ (e0 : EqualSplitRequest) (rest : List EqualSplitRequest),
      req.equalSplits = e0 :: rest → NoHalfCent req.totalAmount →
      ∃ splits, equalSplitStrategyCalculateSplits req = .ok splits) := by
  constructor
  · intro hnil
    unfold equalSplitStrategyCalculateSplits
    rw [if_pos hnil]
  · intro e0 rest hl hnh
    unfold equalSplitStrategyCalculateSplits
    rw [hl, if_neg (List.cons_ne_nil e0 rest)]
    dsimp only
    rw [List.enum_cons, List.map_cons]
    have hstep : (rest.enumFrom 1).map (fun p =>
        ({ id := 0, expenseId := 0, userID := p.2.userID,
           amountPaid := roundToTwoDecimalPlaces p.2.amountPaid,
           amountOwed :=
             if p.1 = 0 then
               roundToTwoDecimalPlaces (req.totalAmount -
                 roundToTwoDecimalPlaces (req.totalAmount / ((e0 :: rest).length : ℚ)) *
                   (((e0 :: rest).length - 1 : ℕ) : ℚ))
             else
               roundToTwoDecimalPlaces
                 (req.totalAmount / ((e0 :: rest).length : ℚ)) } : ExpenseSplit)) =
        rest.map (fun es =>
          ({ id := 0, expenseId := 0, userID := es.userID,
             amountPaid := roundToTwoDecimalPlaces es.amountPaid,
             amountOwed := roundToTwoDecimalPlaces
               (req.totalAmount / ((e0 :: rest).length : ℚ)) } : ExpenseSplit)) := by
      refine map_enumFrom_of_ne_zero _ _ ?_ rest 1 one_ne_zero
      intro i a hi
      dsimp only
      rw [if_neg hi]
    rw [hstep]
    rw [List.map_cons, List.sum_cons]
    dsimp only
    rw [if_pos rfl]
    rw [List.map_map]
    have hconst : ((fun s : ExpenseSplit => s.amountOwed) ∘ (fun es : EqualSplitRequest =>
        ({ id := 0, expenseId := 0, userID := es.userID,
           amountPaid := roundToTwoDecimalPlaces es.amountPaid,
           amountOwed := roundToTwoDecimalPlaces
             (req.totalAmount / ((e0 :: rest).length : ℚ)) } : ExpenseSplit))) =
        (fun _ : EqualSplitRequest =>
          roundToTwoDecimalPlaces (req.totalAmount / ((e0 :: rest).length : ℚ))) := by
      funext es
      rfl
    rw [hconst, sum_map_const]
    have hlen : (((e0 :: rest).length - 1 : ℕ) : ℚ) = (rest.length : ℚ) := by
      simp [List.length_cons]
    rw [hlen]
    have hpass := equal_check_passes req.totalAmount hnh
      (roundToTwoDecimalPlaces (req.totalAmount / ((e0 :: rest).length : ℚ)))
      (cents_roundToTwoDecimalPlaces _) rest.length
    rw [if_neg (fun hne => hne hpass)]
    exact ⟨_, rfl⟩

/-- Claim C8 witness: the non-failure branch of the amended theorem at a
concrete whole-cent request. -/
theorem claim_C8_equal_safety_amended_witness :
    ∃ splits, equalSplitStrategyCalculateSplits
      ⟨"d", "t", 100, "a", 0, "equal",
        [⟨"a", 0, 100⟩, ⟨"b", 0, 0⟩, ⟨"c", 0, 0⟩], [], []⟩ = .ok splits :=
  (claim_C8_equal_safety_amended
    ⟨"d", "t", 100, "a", 0, "equal", [⟨"a", 0, 100⟩, ⟨"b", 0, 0⟩, ⟨"c", 0, 0⟩], [], []⟩).2
    ⟨"a", 0, 100⟩ [⟨"b", 0, 0⟩, ⟨"c", 0, 0⟩] rfl
    (noHalfCent_of_cents ⟨10000, by norm_num⟩)

theorem equal_splits_list_shape (T : ℚ) (e0 : EqualSplitRequest)
    (rest : List EqualSplitRequest) :
    (e0 :: rest).enum.map (fun p =>
      ({ id := 0, expenseId := 0, userID := p.2.userID,
         amountPaid := roundToTwoDecimalPlaces p.2.amountPaid,
         amountOwed :=
           if p.1 = 0 then
             roundToTwoDecimalPlaces (T -
               roundToTwoDecimalPlaces (T / ((e0 :: rest).length : ℚ)) *
                 (((e0 :: rest).length - 1 : ℕ) : ℚ))
           else
             roundToTwoDecimalPlaces (T / ((e0 :: rest).length : ℚ)) } : ExpenseSplit)) =
    ({ id := 0, expenseId := 0, userID := e0.userID,
       amountPaid := roundToTwoDecimalPlaces e0.amountPaid,
       amountOwed := roundToTwoDecimalPlaces (T -
         roundToTwoDecimalPlaces (T / ((e0 :: rest).length : ℚ)) *
           (((e0 :: rest).length - 1 : ℕ) : ℚ)) } : ExpenseSplit) ::
    rest.map (fun es =>
      ({ id := 0, expenseId := 0, userID := es.userID,
         amountPaid := roundToTwoDecimalPlaces es.amountPaid,
         amountOwed := roundToTwoDecimalPlaces (T / ((e0 :: rest).length : ℚ)) } :
        ExpenseSplit)) := by
  rw [List.enum_cons, List.map_cons]
  congr 1
  refine map_enumFrom_of_ne_zero _ _ ?_ rest 1 one_ne_zero
  intro i a hi
  dsimp only
  rw [if_neg hi]

/-- Claim C3: for the equal strategy every accepted participant list is split
as `[round2(total - round2(total/n)*(n-1)), round2(total/n), ...]` — the first
participant absorbs the remainder; for the percentage strategy with
percentages summing to 100 every participant's initial owed amount is
`round2(total*pct/100)` and the residual
`round2(total - sum of initial owed)` is added to the first participant.  In
particular 100.00 split equally three ways yields `[33.34, 33.33, 33.33]`, and
10.00 at percentages `[33.33, 33.33, 33.34]` yields `[3.34, 3.33, 3.33]`. -/
theorem claim_C3_remainder_policy :
    (∀ (req : CreateExpenseRequest) (e0 : EqualSplitRequest) (rest : List EqualSplitRequest)
        (splits : List ExpenseSplit),
        req.equalSplits = e0 :: rest →
        equalSplitStrategyCalculateSplits req = .ok splits →
        splits =
          ⟨0, 0, e0.userID, roundToTwoDecimalPlaces e0.amountPaid,
            roundToTwoDecimalPlaces (req.totalAmount -
              roundToTwoDecimalPlaces (req.totalAmount / ((e0 :: rest).length : ℚ)) *
                (((e0 :: rest).length - 1 : ℕ) : ℚ))⟩ ::
          rest.map (fun es =>
            ⟨0, 0, es.userID, roundToTwoDecimalPlaces es.amountPaid,
              roundToTwoDecimalPlaces (req.totalAmount / ((e0 :: rest).length : ℚ))⟩)) ∧
    (∀ (req : CreateExpenseRequest) (p0 : PercentageSplitRequest)
        (pr : List PercentageSplitRequest) (splits : List ExpenseSplit),
        req.percentageSplits = p0 :: pr →
        percentageSplitStrategyCalculateSplits req = .ok splits →
        splits.map (fun s => s.amountOwed) =
          (roundToTwoDecimalPlaces (req.totalAmount * (p0.percentage / 100)) +
            roundToTwoDecimalPlaces (req.totalAmount -
              ((p0 :: pr).map (fun ps =>
                roundToTwoDecimalPlaces (req.totalAmount * (ps.percentage / 100)))).sum)) ::
          pr.map (fun ps =>
            roundToTwoDecimalPlaces (req.totalAmount * (ps.percentage / 100)))) ∧
    (Except.map (fun l => l.map (fun s => s.amountOwed))
        (equalSplitStrategyCalculateSplits
          ⟨"d", "t", 100, "a", 0, "equal",
            [⟨"a", 0, 100⟩, ⟨"b", 0, 0⟩, ⟨"c", 0, 0⟩], [], []⟩) =
      .ok [1667/50, 3333/100, 3333/100]) ∧
    (Except.map (fun l => l.map (fun s => s.amountOwed))
        (percentageSplitStrategyCalculateSplits
          ⟨"d", "t", 10, "a", 0, "percentage", [],
            [⟨"a", 0, 3333/100, 10⟩, ⟨"b", 0, 3333/100, 0⟩, ⟨"c", 0, 3334/100, 0⟩], []⟩) =
      .ok [167/50, 333/100, 333/100]) := by
  refine ⟨?_, ?_, by decide, by decide⟩
  · intro req e0 rest splits hl h
    unfold equalSplitStrategyCalculateSplits at h
    rw [hl, if_neg (List.cons_ne_nil e0 rest)] at h
    dsimp only at h
    rw [equal_splits_list_shape req.totalAmount e0 rest] at h
    split at h
    · exact Except.noConfusion h
    · exact (Except.ok.inj h).symm
  · intro req p0 pr splits hl h
    unfold percentageSplitStrategyCalculateSplits at h
    rw [hl, if_neg (List.cons_ne_nil p0 pr)] at h
    dsimp only at h
    split at h
    · exact Except.noConfusion h
    · rw [List.map_cons] at h
      have howed : ∀ (l : List PercentageSplitRequest),
          ((l.map (fun ps =>
            ({ id := 0, expenseId := 0, userID := ps.userID,
               amountPaid := roundToTwoDecimalPlaces ps.amountPaid,
               amountOwed := roundToTwoDecimalPlaces
                 (req.totalAmount * (ps.percentage / 100)) } : ExpenseSplit))).map
            (fun s => s.amountOwed)) =
          l.map (fun ps => roundToTwoDecimalPlaces (req.totalAmount * (ps.percentage / 100))) := by
        intro l
        rw [List.map_map]
        rfl
      split at h
      · next hcond =>
          have hL := Except.ok.inj h
          subst hL
          rw [List.map_cons]
          dsimp only
          rw [howed pr]
          congr 1
          rw [List.map_cons, List.sum_cons] at *
          dsimp only
          rw [howed pr]
          refine roundToTwoDecimalPlaces_cents ?_
          refine cents_add (cents_roundToTwoDecimalPlaces _) (cents_roundToTwoDecimalPlaces _)
      · next hcond =>
          have hL := Except.ok.inj h
          subst hL
          rw [List.map_cons]
          dsimp only
          rw [howed pr]
          congr 1
          rcases not_and_or.1 hcond with hc | hc
          · have hdiff := not_not.1 hc
            rw [List.map_cons, List.sum_cons] at hdiff ⊢
            dsimp only at hdiff ⊢
            rw [howed pr] at hdiff
            rw [hdiff, add_zero]
          · exact absurd (not_not.1 hc) (List.cons_ne_nil _ _)

/-- Claim C3 witness: the equal-split shape applied to 100.00 split three
ways. -/
theorem claim_C3_remainder_policy_witness :
    ([⟨0, 0, 7, 100, 1667/50⟩, ⟨0, 0, 8, 0, 3333/100⟩, ⟨0, 0, 9, 0, 3333/100⟩] :
        List ExpenseSplit) =
      ⟨0, 0, 7, roundToTwoDecimalPlaces 100,
        roundToTwoDecimalPlaces ((100 : ℚ) -
          roundToTwoDecimalPlaces ((100 : ℚ) /
            ((([⟨"a", 7, 100⟩, ⟨"b", 8, 0⟩, ⟨"c", 9, 0⟩] :
              List EqualSplitRequest).length : ℕ) : ℚ)) *
            (((([⟨"a", 7, 100⟩, ⟨"b", 8, 0⟩, ⟨"c", 9, 0⟩] :
              List EqualSplitRequest).length : ℕ) - 1 : ℕ) : ℚ))⟩ ::
      ([⟨"b", 8, 0⟩, ⟨"c", 9, 0⟩] : List EqualSplitRequest).map (fun es =>
        ⟨0, 0, es.userID, roundToTwoDecimalPlaces es.amountPaid,
          roundToTwoDecimalPlaces ((100 : ℚ) /
            ((([⟨"a", 7, 100⟩, ⟨"b", 8, 0⟩, ⟨"c", 9, 0⟩] :
              List EqualSplitRequest).length : ℕ) : ℚ))⟩) := by
  have h := claim_C3_remainder_policy.1
    ⟨"d", "t", 100, "a", 0, "equal", [⟨"a", 7, 100⟩, ⟨"b", 8, 0⟩, ⟨"c", 9, 0⟩], [], []⟩
    ⟨"a", 7, 100⟩ [⟨"b", 8, 0⟩, ⟨"c", 9, 0⟩]
    [⟨0, 0, 7, 100, 1667/50⟩, ⟨0, 0, 8, 0, 3333/100⟩, ⟨0, 0, 9, 0, 3333/100⟩]
    rfl (by decide)
  exact h

theorem resolveEqualSplits_ok_props (db : List User) :
    ∀ (l l2 : List EqualSplitRequest), resolveEqualSplits db l = .ok l2 →
      l2.map (fun es => es.userEmail) = l.map (fun es => es.userEmail) ∧
      l2.map (fun es => es.amountPaid) = l.map (fun es => es.amountPaid) ∧
      ∀ es ∈ l, (lookupUserByEmail db es.userEmail).isSome := by
  intro l
  induction l with
  | nil =>
      intro l2 h
      simp only [resolveEqualSplits] at h
      have h2 := Except.ok.inj h
      subst h2
      exact ⟨rfl, rfl, fun es hes => absurd hes (List.not_mem_nil es)⟩
  | cons es rest ih =>
      intro l2 h
      simp only [resolveEqualSplits] at h
      cases hu : lookupUserByEmail db es.userEmail with
      | none =>
          rw [hu] at h
          exact Except.noConfusion h
      | some u =>
          rw [hu] at h
          cases hr : resolveEqualSplits db rest with
          | error e =>
              rw [hr] at h
              exact Except.noConfusion h
          | ok rest2 =>
              rw [hr] at h
              have h2 := Except.ok.inj h
              subst h2
              obtain ⟨he, hp, hs⟩ := ih rest2 hr
              refine ⟨?_, ?_, ?_⟩
              · rw [List.map_cons, List.map_cons, he]
              · rw [List.map_cons, List.map_cons, hp]
              · intro x hx
                rcases List.mem_cons.1 hx with hx1 | hx2
                · rw [hx1, hu]
                  rfl
                · exact hs x hx2

theorem resolvePercentageSplits_ok_props (db : List User) :
    ∀ (l l2 : List PercentageSplitRequest), resolvePercentageSplits db l = .ok l2 →
      l2.map (fun ps => ps.userEmail) = l.map (fun ps => ps.userEmail) ∧
      l2.map (fun ps => ps.percentage) = l.map (fun ps => ps.percentage) ∧
      l2.map (fun ps => ps.amountPaid) = l.map (fun ps => ps.amountPaid) ∧
      ∀ ps ∈ l, (lookupUserByEmail db ps.userEmail).isSome := by
  intro l
  induction l with
  | nil =>
      intro l2 h
      simp only [resolvePercentageSplits] at h
      have h2 := Except.ok.inj h
      subst h2
      exact ⟨rfl, rfl, rfl, fun ps hps => absurd hps (List.not_mem_nil ps)⟩
  | cons ps rest ih =>
      intro l2 h
      simp only [resolvePercentageSplits] at h
      cases hu : lookupUserByEmail db ps.userEmail with
      | none =>
          rw [hu] at h
          exact Except.noConfusion h
      | some u =>
          rw [hu] at h
          cases hr : resolvePercentageSplits db rest with
          | error e =>
              rw [hr] at h
              exact Except.noConfusion h
          | ok rest2 =>
              rw [hr] at h
              have h2 := Except.ok.inj h
              subst h2
              obtain ⟨he, hpct, hp, hs⟩ := ih rest2 hr
              refine ⟨?_, ?_, ?_, ?_⟩
              · rw [List.map_cons, List.map_cons, he]
              · rw [List.map_cons, List.map_cons, hpct]
              · rw [List.map_cons, List.map_cons, hp]
              · intro x hx
                rcases List.mem_cons.1 hx with hx1 | hx2
                · rw [hx1, hu]
                  rfl
                · exact hs x hx2

theorem resolveManualSplits_ok_props (db : List User) :
    ∀ (l l2 : List ManualSplitRequest), resolveManualSplits db l = .ok l2 →
      l2.map (fun ms => ms.userEmail) = l.map (fun ms => ms.userEmail) ∧
      l2.map (fun ms => ms.amountOwed) = l.map (fun ms => ms.amountOwed) ∧
      l2.map (fun ms => ms.amountPaid) = l.map (fun ms => ms.amountPaid) ∧
      ∀ ms ∈ l, (lookupUserByEmail db ms.userEmail).isSome := by
  intro l
  induction l with
  | nil =>
      intro l2 h
      simp only [resolveManualSplits] at h
      have h2 := Except.ok.inj h
      subst h2
      exact ⟨rfl, rfl, rfl, fun ms hms => absurd hms (List.not_mem_nil ms)⟩
  | cons ms rest ih =>
      intro l2 h
      simp only [resolveManualSplits] at h
      cases hu : lookupUserByEmail db ms.userEmail with
      | none =>
          rw [hu] at h
          exact Except.noConfusion h
      | some u =>
          rw [hu] at h
          cases hr : resolveManualSplits db rest with
          | error e =>
              rw [hr] at h
              exact Except.noConfusion h
          | ok rest2 =>
              rw [hr] at h
              have h2 := Except.ok.inj h
              subst h2
              obtain ⟨he, how, hp, hs⟩ := ih rest2 hr
              refine ⟨?_, ?_, ?_, ?_⟩
              · rw [List.map_cons, List.map_cons, he]
              · rw [List.map_cons, List.map_cons, how]
              · rw [List.map_cons, List.map_cons, hp]
              · intro x hx
                rcases List.mem_cons.1 hx with hx1 | hx2
                · rw [hx1, hu]
                  rfl
                · exact hs x hx2

/-- Fields of a request preserved or established by successful email
resolution. -/
theorem resolve_ok_props (db : List User) (req req2 : CreateExpenseRequest)
    (h : resolveUserEmailsToIDs db req = .ok req2) :
    req2.splitMethod = req.splitMethod ∧
    req2.totalAmount = req.totalAmount ∧
    req2.equalSplits.map (fun es => es.amountPaid) =
      req.equalSplits.map (fun es => es.amountPaid) ∧
    req2.equalSplits.length = req.equalSplits.length ∧
    req2.percentageSplits.map (fun ps => ps.percentage) =
      req.percentageSplits.map (fun ps => ps.percentage) ∧
    req2.percentageSplits.map (fun ps => ps.amountPaid) =
      req.percentageSplits.map (fun ps => ps.amountPaid) ∧
    req2.percentageSplits.length = req.percentageSplits.length ∧
    req2.manualSplits.map (fun ms => ms.amountOwed) =
      req.manualSplits.map (fun ms => ms.amountOwed) ∧
    req2.manualSplits.map (fun ms => ms.amountPaid) =
      req.manualSplits.map (fun ms => ms.amountPaid) ∧
    req2.manualSplits.length = req.manualSplits.length ∧
    (lookupUserByEmail db req.createdByEmail).isSome ∧
    (∀ e ∈ methodParticipantEmails req, (lookupUserByEmail db e).isSome) := by
  unfold resolveUserEmailsToIDs at h
  cases hcreator : lookupUserByEmail db req.createdByEmail with
  | none =>
      rw [hcreator] at h
      exact Except.noConfusion h
  | some creator =>
      rw [hcreator] at h
      split_ifs at h with h1 h2 h3
      · cases hr : resolveEqualSplits db req.equalSplits with
        | error e =>
            rw [hr] at h
            exact Except.noConfusion h
        | ok l2 =>
            rw [hr] at h
            have h2 := Except.ok.inj h
            subst h2
            obtain ⟨he, hp, hs⟩ := resolveEqualSplits_ok_props db req.equalSplits l2 hr
            have hlen : l2.length = req.equalSplits.length := by
              have := congrArg List.length he
              simpa using this
            refine ⟨rfl, rfl, hp, hlen, rfl, rfl, rfl, rfl, rfl, rfl, rfl, ?_⟩
            intro e hme
            unfold methodParticipantEmails at hme
            rw [if_pos h1] at hme
            rcases List.mem_map.1 hme with ⟨es, hes, rfl⟩
            exact hs es hes
      · cases hr : resolvePercentageSplits db req.percentageSplits with
        | error e =>
            rw [hr] at h
            exact Except.noConfusion h
        | ok l2 =>
            rw [hr] at h
            have h2' := Except.ok.inj h
            subst h2'
            obtain ⟨he, hpct, hp, hs⟩ := resolvePercentageSplits_ok_props db req.percentageSplits l2 hr
            have hlen : l2.length = req.percentageSplits.length := by
              have := congrArg List.length he
              simpa using this
            refine ⟨rfl, rfl, rfl, rfl, hpct, hp, hlen, rfl, rfl, rfl, rfl, ?_⟩
            intro e hme
            unfold methodParticipantEmails at hme
            rw [if_neg h1, if_pos h2] at hme
            rcases List.mem_map.1 hme with ⟨ps, hps, rfl⟩
            exact hs ps hps
      · cases hr : resolveManualSplits db req.manualSplits with
        | error e =>
            rw [hr] at h
            exact Except.noConfusion h
        | ok l2 =>
            rw [hr] at h
            have h2' := Except.ok.inj h
            subst h2'
            obtain ⟨he, how, hp, hs⟩ := resolveManualSplits_ok_props db req.manualSplits l2 hr
            have hlen : l2.length = req.manualSplits.length := by
              have := congrArg List.length he
              simpa using this
            refine ⟨rfl, rfl, rfl, rfl, rfl, rfl, rfl, how, hp, hlen, rfl, ?_⟩
            intro e hme
            unfold methodParticipantEmails at hme
            rw [if_neg h1, if_neg h2, if_pos h3] at hme
            rcases List.mem_map.1 hme with ⟨ms, hms, rfl⟩
            exact hs ms hms
      · have h2' := Except.ok.inj h
        subst h2'
        refine ⟨rfl, rfl, rfl, rfl, rfl, rfl, rfl, rfl, rfl, rfl, rfl, ?_⟩
        intro e hme
        unfold methodParticipantEmails at hme
        rw [if_neg h1, if_neg h2, if_neg h3] at hme
        exact absurd hme (List.not_mem_nil e)

theorem map_enumFrom_all {α β : Type} (f : ℕ × α → β) (g : α → β)
    (hfg : ∀ i a, f (i, a) = g a) :
    ∀ (l : List α) (k : ℕ), (l.enumFrom k).map f = l.map g := by
  intro l
  induction l with
  | nil => intro k; simp
  | cons a t ih =>
      intro k
      rw [List.enumFrom_cons, List.map_cons, List.map_cons, hfg k a, ih (k + 1)]

theorem equal_ok_paid (req : CreateExpenseRequest) (splits : List ExpenseSplit)
    (h : equalSplitStrategyCalculateSplits req = .ok splits) :
    splits.map (fun s => s.amountPaid) =
      req.equalSplits.map (fun es => roundToTwoDecimalPlaces es.amountPaid) := by
  unfold equalSplitStrategyCalculateSplits at h
  by_cases hnil : req.equalSplits = []
  · rw [if_pos hnil] at h
    exact Except.noConfusion h
  · rw [if_neg hnil] at h
    dsimp only at h
    split at h
    · exact Except.noConfusion h
    · have hL := Except.ok.inj h
      subst hL
      rw [List.map_map]
      rw [show req.equalSplits.enum = req.equalSplits.enumFrom 0 from rfl]
      exact map_enumFrom_all _ _ (fun i a => rfl) req.equalSplits 0

theorem percentage_ok_paid (req : CreateExpenseRequest) (splits : List ExpenseSplit)
    (h : percentageSplitStrategyCalculateSplits req = .ok splits) :
    splits.map (fun s => s.amountPaid) =
      req.percentageSplits.map (fun ps => roundToTwoDecimalPlaces ps.amountPaid) := by
  unfold percentageSplitStrategyCalculateSplits at h
  by_cases hnil : req.percentageSplits = []
  · rw [if_pos hnil] at h
    exact Except.noConfusion h
  · rw [if_neg hnil] at h
    rcases List.exists_cons_of_ne_nil hnil with ⟨p0, pr, hl⟩
    rw [hl] at h ⊢
    dsimp only at h
    split at h
    · exact Except.noConfusion h
    · rw [List.map_cons] at h
      split at h
      · have hL := Except.ok.inj h
        subst hL
        rw [List.map_cons, List.map_cons]
        dsimp only
        rw [List.map_map]
        rfl
      · have hL := Except.ok.inj h
        subst hL
        rw [List.map_cons, List.map_cons]
        dsimp only
        rw [List.map_map]
        rfl

theorem manual_ok_paid (req : CreateExpenseRequest) (splits : List ExpenseSplit)
    (h : manualSplitStrategyCalculateSplits req = .ok splits) :
    splits.map (fun s => s.amountPaid) =
      req.manualSplits.map (fun ms => roundToTwoDecimalPlaces ms.amountPaid) := by
  unfold manualSplitStrategyCalculateSplits at h
  by_cases hnil : req.manualSplits = []
  · rw [if_pos hnil] at h
    exact Except.noConfusion h
  · rw [if_neg hnil] at h
    dsimp only at h
    split at h
    · exact Except.noConfusion h
    · have hL := Except.ok.inj h
      subst hL
      rw [List.map_map]
      rfl

theorem calc_ok_paid (req : CreateExpenseRequest) (splits : List ExpenseSplit)
    (h : calculateExpenseSplits req = .ok splits) :
    splits.map (fun s => s.amountPaid) =
      (methodPaidAmounts req).map roundToTwoDecimalPlaces := by
  unfold calculateExpenseSplits at h
  unfold methodPaidAmounts
  split_ifs at h ⊢ with h1 h2 h3
  · rw [List.map_map]
    exact equal_ok_paid req splits h
  · rw [List.map_map]
    exact percentage_ok_paid req splits h
  · rw [List.map_map]
    exact manual_ok_paid req splits h

theorem run_error (db : List User) (now : ℕ) (st : ServerState) (req : CreateExpenseRequest)
    (h : ∃ e, serviceCreateExpense db now st req = .error e) :
    runCreateExpense db now st req = (st, none) := by
  rcases h with ⟨e, he⟩
  unfold runCreateExpense
  rw [he]

theorem service_error_of_resolve (db : List User) (now : ℕ) (st : ServerState)
    (req : CreateExpenseRequest) (e : ExpenseErr)
    (hres : resolveUserEmailsToIDs db req = .error e) :
    serviceCreateExpense db now st req = .error e := by
  unfold serviceCreateExpense
  rw [hres]

theorem service_error_of_calc (db : List User) (now : ℕ) (st : ServerState)
    (req req2 : CreateExpenseRequest) (hres : resolveUserEmailsToIDs db req = .ok req2)
    (e : ExpenseErr) (hc : calculateExpenseSplits req2 = .error e) :
    serviceCreateExpense db now st req = .error e := by
  unfold serviceCreateExpense
  rw [hres]
  dsimp only
  rw [hc]

theorem service_paid_error (db : List User) (now : ℕ) (st : ServerState)
    (req req2 : CreateExpenseRequest) (splits : List ExpenseSplit)
    (hres : resolveUserEmailsToIDs db req = .ok req2)
    (hsp : calculateExpenseSplits req2 = .ok splits)
    (hmm : roundToTwoDecimalPlaces ((splits.map (fun s => s.amountPaid)).sum) ≠
      roundToTwoDecimalPlaces req2.totalAmount) :
    serviceCreateExpense db now st req =
      .error (.paidMismatch ((splits.map (fun s => s.amountPaid)).sum) req2.totalAmount) := by
  unfold serviceCreateExpense
  rw [hres]
  dsimp only
  rw [hsp]
  dsimp only
  rw [if_pos hmm]

theorem calc_error_of_equal_empty (req2 : CreateExpenseRequest)
    (hm : req2.splitMethod = splitMethodEqual) (hn : req2.equalSplits = []) :
    calculateExpenseSplits req2 = .error .equalRequiresParticipants := by
  unfold calculateExpenseSplits
  rw [if_pos hm]
  unfold equalSplitStrategyCalculateSplits
  rw [if_pos hn]

theorem calc_error_of_percentage_empty (req2 : CreateExpenseRequest)
    (hm : req2.splitMethod = splitMethodPercentage) (hn : req2.percentageSplits = []) :
    calculateExpenseSplits req2 = .error .percentageRequiresPercentages := by
  unfold calculateExpenseSplits
  rw [hm, if_neg (by decide), if_pos rfl]
  unfold percentageSplitStrategyCalculateSplits
  rw [if_pos hn]

theorem calc_error_of_manual_empty (req2 : CreateExpenseRequest)
    (hm : req2.splitMethod = splitMethodManual) (hn : req2.manualSplits = []) :
    calculateExpenseSplits req2 = .error .manualRequiresAmounts := by
  unfold calculateExpenseSplits
  rw [hm, if_neg (by decide), if_neg (by decide), if_pos rfl]
  unfold manualSplitStrategyCalculateSplits
  rw [if_pos hn]

theorem calc_error_of_invalid_method (req2 : CreateExpenseRequest)
    (h1 : req2.splitMethod ≠ splitMethodEqual) (h2 : req2.splitMethod ≠ splitMethodPercentage)
    (h3 : req2.splitMethod ≠ splitMethodManual) :
    calculateExpenseSplits req2 = .error (.invalidSplitMethod req2.splitMethod) := by
  unfold calculateExpenseSplits
  rw [if_neg h1, if_neg h2, if_neg h3]

theorem calc_error_of_percentage_sum (req2 : CreateExpenseRequest)
    (hm : req2.splitMethod = splitMethodPercentage)
    (hsum : (req2.percentageSplits.map (fun ps => ps.percentage)).sum ≠ 100) :
    ∃ e, calculateExpenseSplits req2 = .error e := by
  unfold calculateExpenseSplits
  rw [hm, if_neg (by decide), if_pos rfl]
  unfold percentageSplitStrategyCalculateSplits
  by_cases hn : req2.percentageSplits = []
  · exact ⟨.percentageRequiresPercentages, by rw [if_pos hn]⟩
  · refine ⟨.percentageTotalNot100, ?_⟩
    rw [if_neg hn]
    dsimp only
    rw [if_pos hsum]

theorem calc_error_of_manual_mismatch (req2 : CreateExpenseRequest)
    (hm : req2.splitMethod = splitMethodManual) (hn : req2.manualSplits ≠ [])
    (hmm : roundToTwoDecimalPlaces
        ((req2.manualSplits.map (fun ms => roundToTwoDecimalPlaces ms.amountOwed)).sum) ≠
      roundToTwoDecimalPlaces req2.totalAmount) :
    calculateExpenseSplits req2 = .error (.manualMismatch
      ((req2.manualSplits.map (fun ms => roundToTwoDecimalPlaces ms.amountOwed)).sum)
      req2.totalAmount) := by
  unfold calculateExpenseSplits
  rw [hm, if_neg (by decide), if_neg (by decide), if_pos rfl]
  unfold manualSplitStrategyCalculateSplits
  rw [if_neg hn]
  dsimp only
  rw [List.map_map]
  rw [show ((fun s : ExpenseSplit => s.amountOwed) ∘ fun ms : ManualSplitRequest =>
      ExpenseSplit.mk 0 0 ms.userID (roundToTwoDecimalPlaces ms.amountPaid)
        (roundToTwoDecimalPlaces ms.amountOwed)) =
      (fun ms : ManualSplitRequest => roundToTwoDecimalPlaces ms.amountOwed) from rfl]
  rw [if_pos hmm]

theorem methodPaidAmounts_resolve (db : List User) (req req2 : CreateExpenseRequest)
    (h : resolveUserEmailsToIDs db req = .ok req2) :
    methodPaidAmounts req2 = methodPaidAmounts req := by
  obtain ⟨hm, _, hep, _, _, hpp, _, _, hmp, _, _, _⟩ := resolve_ok_props db req req2 h
  unfold methodPaidAmounts
  rw [hm]
  split_ifs
  · exact hep
  · exact hpp
  · exact hmp
  · rfl

/-- Claim C5: `CreateExpense` returns an error and leaves the state unchanged
whenever the request has an empty participant list for its split method, a
percentage sum different from 100, a manual rounded owed-sum different from
the rounded total, a rounded paid-sum different from the rounded total, an
unrecognized split method, or an unresolvable participant identity; the manual
and paid-sum errors carry the two mismatching amounts. -/
theorem claim_C5_validation_errors :
    (∀ (db : List User) (now : ℕ) (st : ServerState) (req : CreateExpenseRequest),
        req.splitMethod = splitMethodEqual → req.equalSplits = [] →
        runCreateExpense db now st req = (st, none)) ∧
    (∀ (db : List User) (now : ℕ) (st : ServerState) (req : CreateExpenseRequest),
        req.splitMethod = splitMethodPercentage → req.percentageSplits = [] →
        runCreateExpense db now st req = (st, none)) ∧
    (∀ (db : List User) (now : ℕ) (st : ServerState) (req : CreateExpenseRequest),
        req.splitMethod = splitMethodManual → req.manualSplits = [] →
        runCreateExpense db now st req = (st, none)) ∧
    (∀ (db : List User) (now : ℕ) (st : ServerState) (req : CreateExpenseRequest),
        req.splitMethod = splitMethodPercentage →
        (req.percentageSplits.map (fun ps => ps.percentage)).sum ≠ 100 →
        runCreateExpense db now st req = (st, none)) ∧
    (∀ (db : List User) (now : ℕ) (st : ServerState) (req : CreateExpenseRequest),
        req.splitMethod = splitMethodManual →
        roundToTwoDecimalPlaces
            ((req.manualSplits.map (fun ms => roundToTwoDecimalPlaces ms.amountOwed)).sum) ≠
          roundToTwoDecimalPlaces req.totalAmount →
        runCreateExpense db now st req = (st, none)) ∧
    (∀ (db : List User) (now : ℕ) (st : ServerState) (req : CreateExpenseRequest),
        roundToTwoDecimalPlaces (((methodPaidAmounts req).map roundToTwoDecimalPlaces).sum) ≠
          roundToTwoDecimalPlaces req.totalAmount →
        runCreateExpense db now st req = (st, none)) ∧
    (∀ (db : List User) (now : ℕ) (st : ServerState) (req : CreateExpenseRequest),
        req.splitMethod ≠ splitMethodEqual → req.splitMethod ≠ splitMethodPercentage →
        req.splitMethod ≠ splitMethodManual →
        runCreateExpense db now st req = (st, none)) ∧
    (∀ (db : List User) (now : ℕ) (st : ServerState) (req : CreateExpenseRequest),
        (lookupUserByEmail db req.createdByEmail = none ∨
          ∃ e ∈ methodParticipantEmails req, lookupUserByEmail db e = none) →
        runCreateExpense db now st req = (st, none)) ∧
    (∀ (db : List User) (now : ℕ) (st : ServerState) (req req2 : CreateExpenseRequest),
        req.splitMethod = splitMethodManual → req.manualSplits ≠ [] →
        resolveUserEmailsToIDs db req = .ok req2 →
        roundToTwoDecimalPlaces
            ((req.manualSplits.map (fun ms => roundToTwoDecimalPlaces ms.amountOwed)).sum) ≠
          roundToTwoDecimalPlaces req.totalAmount →
        serviceCreateExpense db now st req = .error (.manualMismatch
          ((req.manualSplits.map (fun ms => roundToTwoDecimalPlaces ms.amountOwed)).sum)
          req.totalAmount)) ∧
    (∀ (db : List User) (now : ℕ) (st : ServerState) (req req2 : CreateExpenseRequest)
        (splits : List ExpenseSplit),
        resolveUserEmailsToIDs db req = .ok req2 →
        calculateExpenseSplits req2 = .ok splits →
        roundToTwoDecimalPlaces ((splits.map (fun s => s.amountPaid)).sum) ≠
          roundToTwoDecimalPlaces req.totalAmount →
        serviceCreateExpense db now st req = .error (.paidMismatch
          ((splits.map (fun s => s.amountPaid)).sum) req.totalAmount)) := by
  have manual_owed_sum_resolve : ∀ (db : List User) (req req2 : CreateExpenseRequest),
      resolveUserEmailsToIDs db req = .ok req2 →
      (req2.manualSplits.map (fun ms => roundToTwoDecimalPlaces ms.amountOwed)).sum =
        (req.manualSplits.map (fun ms => roundToTwoDecimalPlaces ms.amountOwed)).sum := by
    intro db req req2 hres
    obtain ⟨_, _, _, _, _, _, _, hmo, _, _, _, _⟩ := resolve_ok_props db req req2 hres
    have h2 : (req2.manualSplits.map (fun ms => ms.amountOwed)).map roundToTwoDecimalPlaces =
        (req.manualSplits.map (fun ms => ms.amountOwed)).map roundToTwoDecimalPlaces := by
      rw [hmo]
    rw [List.map_map, List.map_map] at h2
    exact congrArg List.sum h2
  refine ⟨?_, ?_, ?_, ?_, ?_, ?_, ?_, ?_, ?_, ?_⟩
  · intro db now st req hm hempty
    refine run_error db now st req ?_
    cases hres : resolveUserEmailsToIDs db req with
    | error e => exact ⟨e, service_error_of_resolve db now st req e hres⟩
    | ok req2 =>
        obtain ⟨hm2, _, _, helen, _, _, _, _, _, _, _, _⟩ := resolve_ok_props db req req2 hres
        have hempty2 : req2.equalSplits = [] := by
          rw [← List.length_eq_zero, helen, hempty]
          rfl
        exact ⟨_, service_error_of_calc db now st req req2 hres _
          (calc_error_of_equal_empty req2 (hm2.trans hm) hempty2)⟩
  · intro db now st req hm hempty
    refine run_error db now st req ?_
    cases hres : resolveUserEmailsToIDs db req with
    | error e => exact ⟨e, service_error_of_resolve db now st req e hres⟩
    | ok req2 =>
        obtain ⟨hm2, _, _, _, _, _, hplen, _, _, _, _, _⟩ := resolve_ok_props db req req2 hres
        have hempty2 : req2.percentageSplits = [] := by
          rw [← List.length_eq_zero, hplen, hempty]
          rfl
        exact ⟨_, service_error_of_calc db now st req req2 hres _
          (calc_error_of_percentage_empty req2 (hm2.trans hm) hempty2)⟩
  · intro db now st req hm hempty
    refine run_error db now st req ?_
    cases hres : resolveUserEmailsToIDs db req with
    | error e => exact ⟨e, service_error_of_resolve db now st req e hres⟩
    | ok req2 =>
        obtain ⟨hm2, _, _, _, _, _, _, _, _, hmlen, _, _⟩ := resolve_ok_props db req req2 hres
        have hempty2 : req2.manualSplits = [] := by
          rw [← List.length_eq_zero, hmlen, hempty]
          rfl
        exact ⟨_, service_error_of_calc db now st req req2 hres _
          (calc_error_of_manual_empty req2 (hm2.trans hm) hempty2)⟩
  · intro db now st req hm hsum
    refine run_error db now st req ?_
    cases hres : resolveUserEmailsToIDs db req with
    | error e => exact ⟨e, service_error_of_resolve db now st req e hres⟩
    | ok req2 =>
        obtain ⟨hm2, _, _, _, hpct, _, _, _, _, _, _, _⟩ := resolve_ok_props db req req2 hres
        have hsum2 : (req2.percentageSplits.map (fun ps => ps.percentage)).sum ≠ 100 := by
          rw [hpct]
          exact hsum
        rcases calc_error_of_percentage_sum req2 (hm2.trans hm) hsum2 with ⟨e, he⟩
        exact ⟨e, service_error_of_calc db now st req req2 hres e he⟩
  · intro db now st req hm hmm
    refine run_error db now st req ?_
    cases hres : resolveUserEmailsToIDs db req with
    | error e => exact ⟨e, service_error_of_resolve db now st req e hres⟩
    | ok req2 =>
        obtain ⟨hm2, htot, _, _, _, _, _, _, _, hmlen, _, _⟩ := resolve_ok_props db req req2 hres
        by_cases hempty : req.manualSplits = []
        · have hempty2 : req2.manualSplits = [] := by
            rw [← List.length_eq_zero, hmlen, hempty]
            rfl
          exact ⟨_, service_error_of_calc db now st req req2 hres _
            (calc_error_of_manual_empty req2 (hm2.trans hm) hempty2)⟩
        · have hne2 : req2.manualSplits ≠ [] := by
            intro hc
            apply hempty
            rw [← List.length_eq_zero, ← hmlen, hc]
            rfl
          have hmm2 : roundToTwoDecimalPlaces
              ((req2.manualSplits.map (fun ms => roundToTwoDecimalPlaces ms.amountOwed)).sum) ≠
              roundToTwoDecimalPlaces req2.totalAmount := by
            rw [manual_owed_sum_resolve db req req2 hres, htot]
            exact hmm
          exact ⟨_, service_error_of_calc db now st req req2 hres _
            (calc_error_of_manual_mismatch req2 (hm2.trans hm) hne2 hmm2)⟩
  · intro db now st req hmm
    refine run_error db now st req ?_
    cases hres : resolveUserEmailsToIDs db req with
    | error e => exact ⟨e, service_error_of_resolve db now st req e hres⟩
    | ok req2 =>
        cases hsp : calculateExpenseSplits req2 with
        | error e => exact ⟨e, service_error_of_calc db now st req req2 hres e hsp⟩
        | ok splits =>
            obtain ⟨_, htot, _, _, _, _, _, _, _, _, _, _⟩ := resolve_ok_props db req req2 hres
            have hmm2 : roundToTwoDecimalPlaces ((splits.map (fun s => s.amountPaid)).sum) ≠
                roundToTwoDecimalPlaces req2.totalAmount := by
              rw [calc_ok_paid req2 splits hsp, methodPaidAmounts_resolve db req req2 hres, htot]
              exact hmm
            exact ⟨_, service_paid_error db now st req req2 splits hres hsp hmm2⟩
  · intro db now st req h1 h2 h3
    refine run_error db now st req ?_
    cases hres : resolveUserEmailsToIDs db req with
    | error e => exact ⟨e, service_error_of_resolve db now st req e hres⟩
    | ok req2 =>
        obtain ⟨hm2, _, _, _, _, _, _, _, _, _, _, _⟩ := resolve_ok_props db req req2 hres
        exact ⟨_, service_error_of_calc db now st req req2 hres _
          (calc_error_of_invalid_method req2 (hm2 ▸ h1) (hm2 ▸ h2) (hm2 ▸ h3))⟩
  · intro db now st req hun
    refine run_error db now st req ?_
    cases hres : resolveUserEmailsToIDs db req with
    | error e => exact ⟨e, service_error_of_resolve db now st req e hres⟩
    | ok req2 =>
        obtain ⟨_, _, _, _, _, _, _, _, _, _, hcs, hall⟩ := resolve_ok_props db req req2 hres
        rcases hun with hc | ⟨e, hme, hnone⟩
        · rw [hc] at hcs
          exact absurd hcs (by simp)
        · have := hall e hme
          rw [hnone] at this
          exact absurd this (by simp)
  · intro db now st req req2 hm hne hres hmm
    obtain ⟨hm2, htot, _, _, _, _, _, _, _, hmlen, _, _⟩ := resolve_ok_props db req req2 hres
    have hne2 : req2.manualSplits ≠ [] := by
      intro hc
      apply hne
      rw [← List.length_eq_zero, ← hmlen, hc]
      rfl
    have hmm2 : roundToTwoDecimalPlaces
        ((req2.manualSplits.map (fun ms => roundToTwoDecimalPlaces ms.amountOwed)).sum) ≠
        roundToTwoDecimalPlaces req2.totalAmount := by
      rw [manual_owed_sum_resolve db req req2 hres, htot]
      exact hmm
    have he := service_error_of_calc db now st req req2 hres _
      (calc_error_of_manual_mismatch req2 (hm2.trans hm) hne2 hmm2)
    rw [he, manual_owed_sum_resolve db req req2 hres, htot]
  · intro db now st req req2 splits hres hsp hmm
    obtain ⟨_, htot, _, _, _, _, _, _, _, _, _, _⟩ := resolve_ok_props db req req2 hres
    have hmm2 : roundToTwoDecimalPlaces ((splits.map (fun s => s.amountPaid)).sum) ≠
        roundToTwoDecimalPlaces req2.totalAmount := by
      rw [htot]
      exact hmm
    have he := service_paid_error db now st req req2 splits hres hsp hmm2
    rw [he, htot]

/-- Claim C5 witness: the manual-mismatch part at `total=100`, owed
`[60, 30]`, showing the error carries the mismatching amounts. -/
theorem claim_C5_validation_errors_witness :
    serviceCreateExpense [⟨1, "A", "a"⟩, ⟨2, "B", "b"⟩] 0 ⟨[], []⟩
        ⟨"d", "t", 100, "a", 0, "manual", [], [], [⟨"a", 0, 60, 100⟩, ⟨"b", 0, 30, 0⟩]⟩ =
      .error (.manualMismatch
        ((([⟨"a", 0, 60, 100⟩, ⟨"b", 0, 30, 0⟩] : List ManualSplitRequest).map
          (fun ms => roundToTwoDecimalPlaces ms.amountOwed)).sum) 100) :=
  claim_C5_validation_errors.2.2.2.2.2.2.2.2.1
    [⟨1, "A", "a"⟩, ⟨2, "B", "b"⟩] 0 ⟨[], []⟩
    ⟨"d", "t", 100, "a", 0, "manual", [], [], [⟨"a", 0, 60, 100⟩, ⟨"b", 0, 30, 0⟩]⟩
    ⟨"d", "t", 100, "a", 1, "manual", [], [], [⟨"a", 1, 60, 100⟩, ⟨"b", 2, 30, 0⟩]⟩
    rfl (by decide) (by decide) (by decide)

theorem checkDuplicateEmails_error :
    ∀ (l seen : List String), ((∃ e ∈ seen, e ∈ l) ∨ ¬l.Nodup) →
      ∃ err, checkDuplicateEmails seen l = .error err := by
  intro l
  induction l with
  | nil =>
      intro seen h
      rcases h with ⟨e, _, he⟩ | hn
      · exact absurd he (List.not_mem_nil e)
      · exact absurd List.nodup_nil hn
  | cons x rest ih =>
      intro seen h
      by_cases hx : x ∈ seen
      · exact ⟨.duplicateEmail x, by unfold checkDuplicateEmails; rw [if_pos hx]⟩
      · have hrec : (∃ e ∈ x :: seen, e ∈ rest) ∨ ¬rest.Nodup := by
          rcases h with ⟨e, hes, hel⟩ | hn
          · rcases List.mem_cons.1 hel with he | he
            · exact absurd (he ▸ hes) hx
            · exact Or.inl ⟨e, List.mem_cons_of_mem x hes, he⟩
          · rw [List.nodup_cons] at hn
            rcases not_and_or.1 hn with hn1 | hn2
            · exact Or.inl ⟨x, List.mem_cons_self x seen, not_not.1 hn1⟩
            · exact Or.inr hn2
        rcases ih (x :: seen) hrec with ⟨err, herr⟩
        refine ⟨err, ?_⟩
        unfold checkDuplicateEmails
        rw [if_neg hx]
        exact herr

theorem checkDuplicateEmails_ok :
    ∀ (l seen s : List String), checkDuplicateEmails seen l = .ok s →
      ∀ x, x ∈ s ↔ x ∈ seen ∨ x ∈ l := by
  intro l
  induction l with
  | nil =>
      intro seen s h x
      unfold checkDuplicateEmails at h
      have h2 := Except.ok.inj h
      subst h2
      simp
  | cons a rest ih =>
      intro seen s h x
      unfold checkDuplicateEmails at h
      by_cases ha : a ∈ seen
      · rw [if_pos ha] at h
        exact Except.noConfusion h
      · rw [if_neg ha] at h
        have h2 := ih (a :: seen) s h x
        rw [h2]
        constructor
        · intro hc
          rcases hc with hc | hc
          · rcases List.mem_cons.1 hc with hc1 | hc1
            · exact Or.inr (hc1 ▸ List.mem_cons_self a rest)
            · exact Or.inl hc1
          · exact Or.inr (List.mem_cons_of_mem a hc)
        · intro hc
          rcases hc with hc | hc
          · exact Or.inl (List.mem_cons_of_mem a hc)
          · rcases List.mem_cons.1 hc with hc1 | hc1
            · exact Or.inl (hc1 ▸ List.mem_cons_self a seen)
            · exact Or.inr hc1

theorem validateParticipatingEmails_error_of_dup (req : CreateExpenseRequest)
    (hmethod : req.splitMethod = splitMethodEqual ∨ req.splitMethod = splitMethodPercentage ∨
      req.splitMethod = splitMethodManual)
    (hdup : ¬(methodParticipantEmails req).Nodup) :
    ∃ e, validateParticipatingEmails req = .error e := by
  unfold validateParticipatingEmails
  unfold methodParticipantEmails at hdup
  rcases hmethod with hm | hm | hm
  · rw [hm] at hdup ⊢
    rw [if_pos rfl] at hdup ⊢
    by_cases hn : req.equalSplits = []
    · rw [hn] at hdup
      exact absurd List.nodup_nil hdup
    · rw [if_neg hn]
      exact checkDuplicateEmails_error _ [] (Or.inr hdup)
  · rw [hm] at hdup ⊢
    rw [if_neg (by decide), if_pos rfl] at hdup ⊢
    by_cases hn : req.percentageSplits = []
    · rw [hn] at hdup
      exact absurd List.nodup_nil hdup
    · rw [if_neg hn]
      rcases checkDuplicateEmails_error
        (req.percentageSplits.map (fun s => s.userEmail)) [] (Or.inr hdup) with ⟨err, herr⟩
      refine ⟨err, ?_⟩
      rw [herr]
  · rw [hm] at hdup ⊢
    rw [if_neg (by decide), if_neg (by decide), if_pos rfl] at hdup ⊢
    by_cases hn : req.manualSplits = []
    · rw [hn] at hdup
      exact absurd List.nodup_nil hdup
    · rw [if_neg hn]
      rcases checkDuplicateEmails_error
        (req.manualSplits.map (fun s => s.userEmail)) [] (Or.inr hdup) with ⟨err, herr⟩
      refine ⟨err, ?_⟩
      rw [herr]

theorem validateParticipatingEmails_ok_mem (req : CreateExpenseRequest) (seen : List String)
    (h : validateParticipatingEmails req = .ok seen) :
    ∀ x, x ∈ seen ↔ x ∈ methodParticipantEmails req := by
  unfold validateParticipatingEmails at h
  unfold methodParticipantEmails
  by_cases h1 : req.splitMethod = splitMethodEqual
  · rw [if_pos h1] at h
    rw [if_pos h1]
    by_cases hn : req.equalSplits = []
    · rw [if_pos hn] at h
      exact absurd h (Except.noConfusion ·)
    · rw [if_neg hn] at h
      intro x
      rw [checkDuplicateEmails_ok _ [] seen h x]
      simp
  · rw [if_neg h1] at h
    rw [if_neg h1]
    by_cases h2 : req.splitMethod = splitMethodPercentage
    · rw [if_pos h2] at h
      rw [if_pos h2]
      by_cases hn : req.percentageSplits = []
      · rw [if_pos hn] at h
        exact absurd h (Except.noConfusion ·)
      · rw [if_neg hn] at h
        cases hc : checkDuplicateEmails [] (req.percentageSplits.map (fun s => s.userEmail)) with
        | error e =>
            rw [hc] at h
            exact absurd h (Except.noConfusion ·)
        | ok s =>
            rw [hc] at h
            dsimp only at h
            split at h
            · exact absurd h (Except.noConfusion ·)
            · have h2' := Except.ok.inj h
              subst h2'
              intro x
              rw [checkDuplicateEmails_ok _ [] s hc x]
              simp
    · rw [if_neg h2] at h
      rw [if_neg h2]
      by_cases h3 : req.splitMethod = splitMethodManual
      · rw [if_pos h3] at h
        rw [if_pos h3]
        by_cases hn : req.manualSplits = []
        · rw [if_pos hn] at h
          exact absurd h (Except.noConfusion ·)
        · rw [if_neg hn] at h
          cases hc : checkDuplicateEmails [] (req.manualSplits.map (fun s => s.userEmail)) with
          | error e =>
              rw [hc] at h
              exact absurd h (Except.noConfusion ·)
          | ok s =>
              rw [hc] at h
              dsimp only at h
              split at h
              · exact absurd h (Except.noConfusion ·)
              · have h2' := Except.ok.inj h
                subst h2'
                intro x
                rw [checkDuplicateEmails_ok _ [] s hc x]
                simp
      · rw [if_neg h3] at h
        exact absurd h (Except.noConfusion ·)

/-- Claim C10: the HTTP-level validator rejects, before the expense service is
invoked, any request whose chosen method's split list repeats a participant
email, or whose creator email is not among the split participants. -/
theorem claim_C10_handler_validation (db : List User) (now : ℕ) (st : ServerState)
    (req : CreateExpenseRequest)
    (hmethod : req.splitMethod = splitMethodEqual ∨ req.splitMethod = splitMethodPercentage ∨
      req.splitMethod = splitMethodManual)
    (hbad : ¬(methodParticipantEmails req).Nodup ∨
      req.createdByEmail ∉ methodParticipantEmails req) :
    ∃ e, validateCreateExpenseRequest req = .error e ∧
      handlerCreateExpense db now st req = .error e := by
  have handler_of : ∀ e, validateCreateExpenseRequest req = .error e →
      handlerCreateExpense db now st req = .error e := by
    intro e he
    unfold handlerCreateExpense
    rw [he]
  suffices hs : ∃ e, validateCreateExpenseRequest req = .error e by
    rcases hs with ⟨e, he⟩
    exact ⟨e, he, handler_of e he⟩
  by_cases hreq : req.description = "" ∨ req.totalAmount ≤ 0 ∨ req.createdByEmail = "" ∨
      req.splitMethod = ""
  · exact ⟨.requiredFieldsMissing, by unfold validateCreateExpenseRequest; rw [if_pos hreq]⟩
  · rcases hbad with hdup | hcreator
    · rcases validateParticipatingEmails_error_of_dup req hmethod hdup with ⟨e, he⟩
      refine ⟨e, ?_⟩
      unfold validateCreateExpenseRequest
      rw [if_neg hreq, he]
    · cases hv : validateParticipatingEmails req with
      | error e =>
          refine ⟨e, ?_⟩
          unfold validateCreateExpenseRequest
          rw [if_neg hreq, hv]
      | ok seen =>
          have hmem := validateParticipatingEmails_ok_mem req seen hv req.createdByEmail
          have hnc : req.createdByEmail ∉ seen := fun hc => hcreator (hmem.1 hc)
          refine ⟨.createdByNotInParticipants req.createdByEmail, ?_⟩
          unfold validateCreateExpenseRequest
          rw [if_neg hreq, hv]
          dsimp only
          rw [if_neg hnc]

/-- Claim C10 witness: a duplicated manual-split email is rejected before the
service runs. -/
theorem claim_C10_handler_validation_witness :
    ∃ e, validateCreateExpenseRequest
        ⟨"d", "t", 10, "a", 0, "manual", [], [], [⟨"b", 0, 5, 10⟩, ⟨"b", 0, 5, 0⟩]⟩ =
        .error e ∧
      handlerCreateExpense [] 0 ⟨[], []⟩
        ⟨"d", "t", 10, "a", 0, "manual", [], [], [⟨"b", 0, 5, 10⟩, ⟨"b", 0, 5, 0⟩]⟩ =
        .error e :=
  claim_C10_handler_validation [] 0 ⟨[], []⟩
    ⟨"d", "t", 10, "a", 0, "manual", [], [], [⟨"b", 0, 5, 10⟩, ⟨"b", 0, 5, 0⟩]⟩
    (Or.inr (Or.inr rfl)) (Or.inl (by decide))

theorem balanceRowView_amount (db : List User) (userID : ℤ) (b : Balance) :
    (balanceRowView db userID b).amount =
      roundToTwoDecimalPlaces (if b.user1ID = userID then b.balance else -b.balance) := by
  unfold balanceRowView
  dsimp only
  cases hl : lookupUserByID db (if b.user1ID = userID then b.user2ID else b.user1ID) <;> rfl

theorem balanceRowView_lastUpdated (db : List User) (userID : ℤ) (b : Balance) :
    (balanceRowView db userID b).lastUpdated = b.lastUpdated := by
  unfold balanceRowView
  dsimp only
  cases hl : lookupUserByID db (if b.user1ID = userID then b.user2ID else b.user1ID) <;> rfl

/-- Claim C7: `GetOutstandingBalancesForUser` returns one view per stored
balance row in which the user participates: the amount equals the stored
balance when the user is `user1` and its negation when the user is `user2`
(whole-cent stored balances, as guaranteed by the `DECIMAL(10,2)` column), in
descending `last_updated` order.  In particular a stored `Balance(3,5)=12.00`
is reported as `+12.00` to user 3 and `-12.00` to user 5. -/
theorem claim_C7_balance_reader :
    (∀ (db : List User) (st : ServerState) (userEmail : String) (user : User)
        (views : List UserBalanceView),
        (getUsersByEmails db [userEmail]).head? = some user →
        (∀ b ∈ st.balances, Cents b.balance) →
        getOutstandingBalancesForUser db st userEmail = .ok views →
        (getBalancesByUserID st.balances user.id).Perm
          (st.balances.filter (fun b => b.user1ID = user.id ∨ b.user2ID = user.id)) ∧
        List.Sorted (fun a b : UserBalanceView => b.lastUpdated ≤ a.lastUpdated) views ∧
        views.map (fun v => v.amount) =
          (getBalancesByUserID st.balances user.id).map
            (fun b => if b.user1ID = user.id then b.balance else -b.balance) ∧
        views.length =
          (st.balances.filter (fun b => b.user1ID = user.id ∨ b.user2ID = user.id)).length) ∧
    (getOutstandingBalancesForUser [⟨3, "u3", "e3"⟩, ⟨5, "u5", "e5"⟩]
        ⟨[], [⟨3, 5, 12, 0⟩]⟩ "e3" = .ok [⟨"e5", "u5", 12, 0⟩]) ∧
    (getOutstandingBalancesForUser [⟨3, "u3", "e3"⟩, ⟨5, "u5", "e5"⟩]
        ⟨[], [⟨3, 5, 12, 0⟩]⟩ "e5" = .ok [⟨"e3", "u3", -12, 0⟩]) := by
  refine ⟨?_, by decide, by decide⟩
  intro db st userEmail user views huser hcents hout
  unfold getOutstandingBalancesForUser at hout
  rw [huser] at hout
  have hv := Except.ok.inj hout
  subst hv
  have hperm : (getBalancesByUserID st.balances user.id).Perm
      (st.balances.filter (fun b => b.user1ID = user.id ∨ b.user2ID = user.id)) :=
    List.perm_insertionSort recentFirst _
  have hmemrows : ∀ b ∈ getBalancesByUserID st.balances user.id, b ∈ st.balances := by
    intro b hb
    have hb2 := hperm.mem_iff.1 hb
    exact (List.mem_filter.1 hb2).1
  refine ⟨hperm, ?_, ?_, ?_⟩
  · have hsorted : List.Sorted recentFirst (getBalancesByUserID st.balances user.id) :=
      List.sorted_insertionSort recentFirst _
    refine List.Pairwise.map (balanceRowView db user.id) ?_ hsorted
    intro a b hab
    rw [balanceRowView_lastUpdated, balanceRowView_lastUpdated]
    exact hab
  · rw [List.map_map]
    refine List.map_congr_left ?_
    intro b hb
    have hc : Cents b.balance := hcents b (hmemrows b hb)
    show (balanceRowView db user.id b).amount = _
    rw [balanceRowView_amount]
    by_cases h1 : b.user1ID = user.id
    · rw [if_pos h1]
      exact roundToTwoDecimalPlaces_cents hc
    · rw [if_neg h1]
      exact roundToTwoDecimalPlaces_cents (cents_neg hc)
  · rw [List.length_map]
    exact hperm.length_eq

/-- Claim C7 witness: the reader's contract instantiated on the stored row
`Balance(3,5) = 12`. -/
theorem claim_C7_balance_reader_witness :
    ([(⟨"e5", "u5", 12, 0⟩ : UserBalanceView)].map (fun v => v.amount)) =
      (getBalancesByUserID ([⟨3, 5, 12, 0⟩] : List Balance) 3).map
        (fun b => if b.user1ID = 3 then b.balance else -b.balance) :=
  (claim_C7_balance_reader.1 [⟨3, "u3", "e3"⟩, ⟨5, "u5", "e5"⟩] ⟨[], [⟨3, 5, 12, 0⟩]⟩
    "e3" ⟨3, "u3", "e3"⟩ [⟨"e5", "u5", 12, 0⟩] (by decide)
    (by intro b hb; simp only [List.mem_singleton] at hb; exact ⟨1200, by rw [hb]; norm_num⟩)
    (by decide)).2.2.1

theorem sum_map_filterMap {α β : Type} (g : α → Option β) (h : β → ℚ) :
    ∀ (l : List α),
      ((l.filterMap g).map h).sum =
        (l.map (fun a => match g a with | some b => h b | none => 0)).sum := by
  intro l
  induction l with
  | nil => simp
  | cons a t ih =>
      cases hg : g a with
      | none =>
          rw [List.filterMap_cons, hg, ih, List.map_cons, List.sum_cons, hg]
          ring
      | some b =>
          rw [List.filterMap_cons, hg, List.map_cons, List.sum_cons, ih,
            List.map_cons, List.sum_cons, hg]

theorem updates_sum_eq_expensePairDelta (e : Expense) (splits : List ExpenseSplit)
    (v1 v2 : ℤ) (hv : v1 < v2) :
    ((calculateBalanceUpdates e splits).map
      (fun u => pairDelta u.user1ID u.user2ID u.amount v1 v2)).sum =
    expensePairDelta v1 v2 e splits := by
  rw [calculateBalanceUpdates_eq_spec]
  unfold balanceDeltasSpec expensePairDelta
  rw [sum_map_filterMap]
  refine congrArg List.sum (List.map_congr_left ?_)
  intro s _
  by_cases hC : e.createdBy = s.userID
  · rw [if_neg (fun hc => hc.1 hC)]
    have r1 : ¬(e.createdBy = v1 ∧ s.userID = v2) := by
      rintro ⟨a, c⟩
      omega
    have r2 : ¬(e.createdBy = v2 ∧ s.userID = v1) := by
      rintro ⟨a, c⟩
      omega
    rw [if_neg r1, if_neg r2]
    norm_num
  · by_cases hnet : s.amountOwed - s.amountPaid ≠ 0
    · rw [if_pos ⟨hC, hnet⟩]
      show pairDelta e.createdBy s.userID (s.amountOwed - s.amountPaid) v1 v2 = _
      unfold pairDelta
      by_cases hgt : e.createdBy > s.userID
      · rw [if_pos hgt]
        have r1 : ¬(e.createdBy = v1 ∧ s.userID = v2) := by
          rintro ⟨a, c⟩
          omega
        rw [if_neg r1, zero_sub]
        by_cases r2 : s.userID = v1 ∧ e.createdBy = v2
        · rw [if_pos r2, if_pos ⟨r2.2, r2.1⟩]
        · rw [if_neg r2, if_neg (fun hc => r2 ⟨hc.2, hc.1⟩), neg_zero]
      · rw [if_neg hgt]
        have r2 : ¬(e.createdBy = v2 ∧ s.userID = v1) := by
          rintro ⟨a, c⟩
          omega
        rw [if_neg r2, sub_zero]
    · rw [if_neg (fun hc => hnet hc.2)]
      have h0 : s.amountOwed - s.amountPaid = 0 := not_not.1 hnet
      rw [h0]
      norm_num

theorem expensePairDelta_repo (u1 u2 : ℤ) (e : Expense) (idv : ℤ) (ts : ℕ)
    (splits : List ExpenseSplit) (eidv : ℤ) :
    expensePairDelta u1 u2 { e with id := idv, createdAt := ts }
      (splits.map (fun s => { s with expenseId := eidv })) =
    expensePairDelta u1 u2 e splits := by
  unfold expensePairDelta
  rw [List.map_map]
  rfl

/-- Claim C2 counterexample: one successful `createExpense` (creator user 1
pays 10, manual owed 5/5 with user 2) leaves `Balance(1,2) = 5`, while the
claim's formula `(u1's owed - paid) - (u2's owed - paid)` predicts `-10`. -/
theorem claim_C2_counterexample :
    (serviceCreateExpense [⟨1, "A", "a"⟩, ⟨2, "B", "b"⟩] 0 ⟨[], []⟩
        ⟨"d", "t", 10, "a", 0, "manual", [], [], [⟨"a", 0, 5, 10⟩, ⟨"b", 0, 5, 0⟩]⟩).map
      (fun out => (getBalance out.1.balances 1 2, specPairBalanceFormula 1 2 out.1.expenses)) =
      .ok (5, -10) ∧ (5 : ℚ) ≠ -10 :=
  ⟨by decide, by norm_num⟩

/-- Claim C2 amended: in every state reachable from the empty tables by
successful `createExpense` operations, the stored `Balance(u1,u2)` of a
canonical pair `u1 < u2` equals the sum over recorded expenses of the nets
`amount_owed - amount_paid` of `u2`'s splits in expenses created by `u1`,
minus the nets of `u1`'s splits in expenses created by `u2`; expenses created
by third parties contribute nothing. -/
theorem claim_C2_ledger_invariant_amended (st : ServerState) (h : Reachable st) :
    ∀ (u1 u2 : ℤ), u1 < u2 →
      getBalance st.balances u1 u2 =
        (st.expenses.map (fun p => expensePairDelta u1 u2 p.1 p.2)).sum := by
  induction h with
  | init =>
      intro u1 u2 _
      rfl
  | step hreach hok ih =>
      intro u1 u2 huv
      rename_i db now st0 req out
      obtain ⟨req2, splits, hres, hsplits, hout⟩ := service_ok_decompose db now st0 req out hok
      rw [hout]
      simp only [repoCreateExpense]
      have hdelta : expensePairDelta u1 u2
          (⟨(st0.expenses.length : ℤ) + 1, req2.description, req2.tag, req2.totalAmount,
            req2.createdByID, now⟩ : Expense)
          (splits.map (fun s => { s with expenseId := (st0.expenses.length : ℤ) + 1 })) =
          expensePairDelta u1 u2
            ⟨0, req2.description, req2.tag, req2.totalAmount, req2.createdByID, 0⟩ splits := by
        unfold expensePairDelta
        rw [List.map_map]
        rfl
      rw [getBalance_applyBalanceUpdates, ih u1 u2 huv,
        updates_sum_eq_expensePairDelta _ _ u1 u2 huv,
        List.map_append, List.sum_append, List.map_cons, List.sum_cons, List.map_nil,
        List.sum_nil, hdelta]
      ring

/-- Claim C2 witness: the amended invariant evaluated on the one-step
reachable state of the counterexample scenario. -/
theorem claim_C2_ledger_invariant_amended_witness :
    getBalance (⟨[(⟨1, "d", "t", 10, 1, 0⟩, [⟨0, 1, 1, 10, 5⟩, ⟨0, 1, 2, 0, 5⟩])],
        [⟨1, 2, 5, 0⟩]⟩ : ServerState).balances 1 2 =
      ((⟨[(⟨1, "d", "t", 10, 1, 0⟩, [⟨0, 1, 1, 10, 5⟩, ⟨0, 1, 2, 0, 5⟩])],
        [⟨1, 2, 5, 0⟩]⟩ : ServerState).expenses.map
          (fun p => expensePairDelta 1 2 p.1 p.2)).sum :=
  claim_C2_ledger_invariant_amended _
    (Reachable.step Reachable.init
      (by decide :
        serviceCreateExpense [⟨1, "A", "a"⟩, ⟨2, "B", "b"⟩] 0 ⟨[], []⟩
          ⟨"d", "t", 10, "a", 0, "manual", [], [], [⟨"a", 0, 5, 10⟩, ⟨"b", 0, 5, 0⟩]⟩ =
        .ok (⟨[(⟨1, "d", "t", 10, 1, 0⟩, [⟨0, 1, 1, 10, 5⟩, ⟨0, 1, 2, 0, 5⟩])],
          [⟨1, 2, 5, 0⟩]⟩, ⟨1, "d", "t", 10, 1, 0⟩)))
    1 2 (by decide)

end SplitExpense
